import Mathlib

/-!
# Verification of the RustFFT split-radix core

This file is a shallow embedding of the two source files
`src/algorithm/split_radix.rs` and `src/algorithm/avx/mod.rs` of the
liebharc/RustFFT repository, together with proofs about that embedding.

Modelling choices:

* A buffer of `Complex<T>` samples is modelled as a function `ℕ → ℂ`;
  the arithmetic is exact complex arithmetic (the specification's claims
  are stated "assuming exact arithmetic").
* An in-place store `buffer[i] = v` is modelled by the functional update
  `upd`; the `for` loops of the source are modelled by `iterFor`, which
  folds the loop body over the loop counter in program order, so every
  read of a partially overwritten buffer happens exactly as in the source.
* The scratch slice, which the source splits via `split_at_mut` into a
  `scratch_quarter1` half and a `scratch_quarter3` half, is modelled as
  the two separate functions `sq1` and `sq3` (index `j` of `sq3`
  corresponds to `scratch[quarter_len + j]`).
* Length checks (`verify_length_inline`, `verify_length_minimum`, the
  `assert_eq!` calls) abort with a diagnostic in the source; aborts are
  modelled with `Except Diag`, where the `Diag` value carries the same
  observed/expected data as the source's panic message.
* The helper module `twiddles` (`single_twiddle`, `rotate_90`) and the
  `common` module (`verify_length_inline`, `verify_length_minimum`) are
  part of the repository but are not among the provided sources; they are
  modelled from the specification text and marked as such.
-/

namespace RustFFT

open Complex Finset

/-- Pointwise functional update: models a single in-place store `buffer[i] = v`
into a buffer modelled as a function `ℕ → ℂ`. -/
def upd (f : ℕ → ℂ) (i : ℕ) (v : ℂ) : ℕ → ℂ :=
  fun j => if j = i then v else f j

/-- `iterFor body start count st` executes `for i in start .. start+count { st = body st i }`
in program order. -/
def iterFor {σ : Type} (body : σ → ℕ → σ) : ℕ → ℕ → σ → σ
  | _start, 0, st => st
  | start, c + 1, st => iterFor body (start + 1) c (body st start)

/-- Modelled from the spec: the twiddle generator `twiddles::single_twiddle` is part of
the repository but its file is not among the provided sources.  Spec §4.1:
`Wₖ(N, d) = (cos θ, s·sin θ)` where `θ = −2πk/N`, `s = +1` for forward and `s = −1`
for inverse; that is, `exp(−2πik/N)` forward and its conjugate `exp(+2πik/N)` inverse. -/
noncomputable def single_twiddle (k n : ℕ) (inverse : Bool) : ℂ :=
  Complex.exp ((((if inverse then (1 : ℝ) else -1) * (2 * Real.pi * k / n) : ℝ) : ℂ) * Complex.I)

/-- Modelled from the spec: `twiddles::rotate_90` is part of the repository but its file
is not among the provided sources.  Spec §4.2/§4.4: a 90° rotation whose sign depends on
direction — `−j·z` for forward (swap re and im, negate the new imaginary part) and
`j·z` for inverse (negate the new real part). -/
def rotate_90 (z : ℂ) (inverse : Bool) : ℂ :=
  if inverse then ⟨-z.im, z.re⟩ else ⟨z.im, -z.re⟩

/-- Diagnostics carried by a fatal abort (panic) or a recoverable error.  Each
constructor records the same data that the corresponding source panic message
interpolates (observed vs. expected sizes, mismatched directions, ...). -/
inductive Diag where
  | wrongBufferLength (expected observed : ℕ)
  | scratchTooSmall (expected observed : ℕ)
  | mismatchedInverse (halfInverse quarterInverse : Bool)
  | mismatchedLength (halfLen quarterLen : ℕ)
  | lengthNotMultipleOf16 (len : ℕ)
  | unimplemented
  deriving DecidableEq, Repr

/-- Modelled from the spec: `common::verify_length_inline` is part of the repository but
its file is not among the provided sources.  Spec §7: a wrong-sized buffer is a contract
violation; the call aborts with a diagnostic identifying the observed vs. expected size. -/
def verify_length_inline (observed expected : ℕ) : Except Diag Unit :=
  if observed = expected then .ok () else .error (.wrongBufferLength expected observed)

/-- Modelled from the spec: `common::verify_length_minimum`, not among the provided
sources.  Spec §7: scratch shorter than the advertised requirement is a contract
violation; the call aborts with a diagnostic identifying the observed vs. expected size. -/
def verify_length_minimum (observed minimum : ℕ) : Except Diag Unit :=
  if minimum ≤ observed then .ok () else .error (.scratchTooSmall minimum observed)

/-- An inner transform handle (`Arc<FftInline<T>>` in the source): its advertised
length, its direction, and the buffer transformation its `process_inline` performs on
the first `len` entries of its buffer. -/
structure InnerFft where
  len : ℕ
  inverse : Bool
  apply : (ℕ → ℂ) → (ℕ → ℂ)

/-- The effect of running an inner in-place FFT over the first `n` entries of a
region: entries below `n` hold the inner transform's output and the rest are
unchanged.  (The source hands the inner FFT the free tail of the buffer as scratch;
the tail's final contents never reach the recombination stage — every recombination
read is from the first half of the buffer or from the scratch quarters, and every
buffer position is overwritten by the recombination — so clobbering of that tail is
not modelled.) -/
def overlay (g : ℕ → ℂ) (n : ℕ) (f : ℕ → ℂ) : ℕ → ℂ :=
  fun j => if j < n then g j else f j

/-- Joint state of `buffer`, `scratch_quarter1` and `scratch_quarter3` during
`perform_fft`. -/
structure SRState where
  buf : ℕ → ℂ
  sq1 : ℕ → ℂ
  sq3 : ℕ → ℂ

/-- One iteration of the decimation loop of `SplitRadix::perform_fft`
(split_radix.rs lines 73–78), in source order:

    *scratch_quarter3.get_unchecked_mut(i)  = *buffer.get_unchecked(i * 4 - 1);
    *buffer.get_unchecked_mut(i * 2)        = *buffer.get_unchecked(i * 4);
    *scratch_quarter1.get_unchecked_mut(i)  = *buffer.get_unchecked(i * 4 + 1);
    *buffer.get_unchecked_mut(i * 2 + 1)    = *buffer.get_unchecked(i * 4 + 2);

Reads that happen after the store to `buffer[2i]` go through the updated buffer. -/
def decimBody (st : SRState) (i : ℕ) : SRState :=
  let s3 := upd st.sq3 i (st.buf (i * 4 - 1))
  let b1 := upd st.buf (i * 2) (st.buf (i * 4))
  let s1 := upd st.sq1 i (b1 (i * 4 + 1))
  let b2 := upd b1 (i * 2 + 1) (b1 (i * 4 + 2))
  ⟨b2, s1, s3⟩

/-- The decimation stage of `SplitRadix::perform_fft` (lines 70–79), for
`quarter_len = m` and a buffer of length `4*m`: the two stores before the loop, the
loop `for i in 1..quarter_len`, and the final store
`*scratch_quarter3.get_unchecked_mut(0) = *buffer.get_unchecked(buffer.len() - 1)`. -/
def decimate (m : ℕ) (st : SRState) : SRState :=
  let s1 := upd st.sq1 0 (st.buf 1)
  let b := upd st.buf 1 (st.buf 2)
  let st1 := iterFor decimBody 1 (m - 1) ⟨b, s1, st.sq3⟩
  ⟨st1.buf, st1.sq1, upd st1.sq3 0 (st1.buf (4 * m - 1))⟩

/-- One iteration of the recombination loop of `SplitRadix::perform_fft`
(lines 90–108), with `half_len` and `quarter_len` passed in as in the source. -/
def recombBody (inverse : Bool) (tw : ℕ → ℂ) (half_len quarter_len : ℕ)
    (st : SRState) (i : ℕ) : SRState :=
  let twiddle := tw i
  let half0_result := st.buf i
  let half1_result := st.buf (i + quarter_len)
  let twiddled_quarter1 := twiddle * st.sq1 i
  let twiddled_quarter3 := (starRingEnd ℂ) twiddle * st.sq3 i
  let quarter_sum := twiddled_quarter1 + twiddled_quarter3
  let quarter_diff := twiddled_quarter1 - twiddled_quarter3
  let rotated_quarter_diff := rotate_90 quarter_diff inverse
  let b := upd st.buf i (half0_result + quarter_sum)
  let b := upd b (i + half_len) (half0_result - quarter_sum)
  let b := upd b (i + quarter_len) (half1_result + rotated_quarter_diff)
  let b := upd b (i + quarter_len * 3) (half1_result - rotated_quarter_diff)
  ⟨b, st.sq1, st.sq3⟩

/-- The recombination loop `for i in 0..quarter_len` of `SplitRadix::perform_fft`,
with `half_len = 2*m` and `quarter_len = m`. -/
def recombine (inverse : Bool) (tw : ℕ → ℂ) (m : ℕ) (st : SRState) : SRState :=
  iterFor (recombBody inverse tw (2 * m) m) 0 m st

/-- The scalar split-radix handle (`SplitRadix<T>`, split_radix.rs lines 27–33).
The twiddle table (a boxed slice of `quarter_len` entries, indexed below
`quarter_len` only) is modelled as a function. -/
structure SplitRadix where
  twiddles : ℕ → ℂ
  fft_half : InnerFft
  fft_quarter : InnerFft
  len : ℕ
  inverse : Bool

/-- `SplitRadix::new` (lines 37–61): the two `assert_eq!` contract checks, then the
twiddle table `(0..quarter_len).map(|i| twiddles::single_twiddle(i, len, inverse))`. -/
noncomputable def SplitRadix.new (fft_half fft_quarter : InnerFft) :
    Except Diag SplitRadix :=
  if fft_half.inverse ≠ fft_quarter.inverse then
    .error (.mismatchedInverse fft_half.inverse fft_quarter.inverse)
  else if fft_half.len ≠ fft_quarter.len * 2 then
    .error (.mismatchedLength fft_half.len fft_quarter.len)
  else
    let inverse := fft_quarter.inverse
    let quarter_len := fft_quarter.len
    let len := quarter_len * 4
    .ok { twiddles := fun i => single_twiddle i len inverse
          fft_half := fft_half
          fft_quarter := fft_quarter
          len := len
          inverse := inverse }

/-- The inner-FFT stage of `perform_fft` (lines 84–87): the half FFT runs in place on
`buffer[0..half_len)`, and the quarter FFT runs in place on each scratch quarter. -/
def innerStage (half quarter : InnerFft) (half_len quarter_len : ℕ) (st : SRState) :
    SRState :=
  ⟨overlay (half.apply st.buf) half_len st.buf,
   overlay (quarter.apply st.sq1) quarter_len st.sq1,
   overlay (quarter.apply st.sq3) quarter_len st.sq3⟩

/-- `SplitRadix::perform_fft` (lines 63–109): decimation, the three inner FFTs
(the half FFT on `buffer[0..half_len)`, the quarter FFT on each scratch half),
then recombination. -/
def SplitRadix.perform_fft (self : SplitRadix) (st : SRState) : SRState :=
  let half_len := self.len / 2
  let quarter_len := self.len / 4
  let std := decimate quarter_len st
  let st1 := innerStage self.fft_half self.fft_quarter half_len quarter_len std
  iterFor (recombBody self.inverse self.twiddles half_len quarter_len) 0 quarter_len st1

/-- `SplitRadix::get_required_scratch_len` (lines 126–128). -/
def SplitRadix.get_required_scratch_len (self : SplitRadix) : ℕ :=
  self.len / 2

/-- `FftInline::process_inline` for `SplitRadix` (lines 113–125): verify the buffer
length and the scratch minimum, cap the scratch, and run `perform_fft`.
`buffer_len` and `scratch_len` are the lengths of the caller's slices. -/
def SplitRadix.process_inline (self : SplitRadix) (buffer_len scratch_len : ℕ)
    (st : SRState) : Except Diag SRState := do
  let _ ← verify_length_inline buffer_len self.len
  let _ ← verify_length_minimum scratch_len self.get_required_scratch_len
  .ok (self.perform_fft st)

/-- The discrete Fourier transform of the first `n` entries of `x`, in the stated
numeric convention (spec §6): `Xₖ = Σₙ xₙ · exp(−2πi·k·n/N)` forward, the conjugated
kernel for inverse — i.e. kernel `single_twiddle (k*j) n inverse`. -/
noncomputable def dft (n : ℕ) (inverse : Bool) (x : ℕ → ℂ) : ℕ → ℂ :=
  fun k => ∑ j ∈ Finset.range n, x j * single_twiddle (k * j) n inverse

/-! ## Algebra of the twiddle factors -/

theorem single_twiddle_mul (a b n : ℕ) (inverse : Bool) :
    single_twiddle a n inverse * single_twiddle b n inverse =
      single_twiddle (a + b) n inverse := by
  unfold single_twiddle
  rw [← Complex.exp_add]
  congr 1
  push_cast
  ring

theorem single_twiddle_zero (n : ℕ) (inverse : Bool) : single_twiddle 0 n inverse = 1 := by
  unfold single_twiddle
  simp

theorem single_twiddle_pow (a n : ℕ) (inverse : Bool) (c : ℕ) :
    single_twiddle a n inverse ^ c = single_twiddle (a * c) n inverse := by
  induction c with
  | zero => simp [single_twiddle_zero]
  | succ c ih =>
      rw [pow_succ, ih, single_twiddle_mul, Nat.mul_succ]

theorem single_twiddle_self (n : ℕ) (hn : n ≠ 0) (inverse : Bool) :
    single_twiddle n n inverse = 1 := by
  have hn' : (n : ℝ) ≠ 0 := Nat.cast_ne_zero.mpr hn
  cases inverse with
  | false =>
      have h : ((-1 : ℝ) * (2 * Real.pi * n / n) : ℝ) = -(2 * Real.pi) := by
        field_simp
      simp only [single_twiddle, Bool.false_eq_true, if_neg, ite_false, h]
      have h2 : ((-(2 * Real.pi) : ℝ) : ℂ) * Complex.I = (-1 : ℤ) * (2 * Real.pi * Complex.I) := by
        push_cast
        ring
      rw [h2, Complex.exp_int_mul_two_pi_mul_I]
  | true =>
      have h : ((1 : ℝ) * (2 * Real.pi * n / n) : ℝ) = 2 * Real.pi := by
        field_simp
      simp only [single_twiddle, ite_true, h]
      have h2 : ((2 * Real.pi : ℝ) : ℂ) * Complex.I = (1 : ℤ) * (2 * Real.pi * Complex.I) := by
        push_cast
        ring
      rw [h2, Complex.exp_int_mul_two_pi_mul_I]

theorem single_twiddle_mul_self (c n : ℕ) (hn : n ≠ 0) (inverse : Bool) :
    single_twiddle (c * n) n inverse = 1 := by
  rw [mul_comm, ← single_twiddle_pow, single_twiddle_self n hn, one_pow]

theorem single_twiddle_half (m : ℕ) (hm : m ≠ 0) (inverse : Bool) :
    single_twiddle (2 * m) (4 * m) inverse = -1 := by
  have hm' : (m : ℝ) ≠ 0 := Nat.cast_ne_zero.mpr hm
  cases inverse with
  | false =>
      have h : ((-1 : ℝ) * (2 * Real.pi * (2 * m : ℕ) / (4 * m : ℕ)) : ℝ) = -Real.pi := by
        push_cast
        field_simp
        ring
      simp only [single_twiddle, Bool.false_eq_true, ite_false, h]
      have h2 : ((-Real.pi : ℝ) : ℂ) * Complex.I = -(Real.pi * Complex.I) := by
        push_cast
        ring
      rw [h2, Complex.exp_neg, Complex.exp_pi_mul_I]
      norm_num
  | true =>
      have h : ((1 : ℝ) * (2 * Real.pi * (2 * m : ℕ) / (4 * m : ℕ)) : ℝ) = Real.pi := by
        push_cast
        field_simp
        ring
      simp only [single_twiddle, ite_true, h]
      exact_mod_cast Complex.exp_pi_mul_I

theorem single_twiddle_quarter (m : ℕ) (hm : m ≠ 0) (inverse : Bool) :
    single_twiddle m (4 * m) inverse = if inverse then Complex.I else -Complex.I := by
  have hm' : (m : ℝ) ≠ 0 := Nat.cast_ne_zero.mpr hm
  cases inverse with
  | false =>
      have h : ((-1 : ℝ) * (2 * Real.pi * m / (4 * m : ℕ)) : ℝ) = -(Real.pi / 2) := by
        push_cast
        field_simp
        ring
      simp only [single_twiddle, Bool.false_eq_true, ite_false, h]
      have h2 : ((-(Real.pi / 2) : ℝ) : ℂ) * Complex.I = -((Real.pi / 2 : ℝ) * Complex.I) := by
        push_cast
        ring
      have hI : Complex.exp (((Real.pi / 2 : ℝ) : ℂ) * Complex.I) = Complex.I := by
        simp [Complex.exp_mul_I, Real.cos_pi_div_two, Real.sin_pi_div_two]
      rw [h2, Complex.exp_neg, hI, Complex.inv_I]
  | true =>
      have h : ((1 : ℝ) * (2 * Real.pi * m / (4 * m : ℕ)) : ℝ) = Real.pi / 2 := by
        push_cast
        field_simp
        ring
      simp only [single_twiddle, ite_true, h]
      simp [Complex.exp_mul_I, Real.cos_pi_div_two, Real.sin_pi_div_two]

theorem single_twiddle_conj_mul (a n : ℕ) (inverse : Bool) :
    (starRingEnd ℂ) (single_twiddle a n inverse) * single_twiddle a n inverse = 1 := by
  unfold single_twiddle
  generalize ((if inverse then (1 : ℝ) else -1) * (2 * Real.pi * a / n) : ℝ) = θ
  have h : (starRingEnd ℂ) (((θ : ℝ) : ℂ) * Complex.I) + ((θ : ℝ) : ℂ) * Complex.I = 0 := by
    rw [map_mul, Complex.conj_ofReal, Complex.conj_I]
    ring
  rw [← Complex.exp_conj, ← Complex.exp_add, h, Complex.exp_zero]

theorem single_twiddle_scale (c a n : ℕ) (hc : c ≠ 0) (inverse : Bool) :
    single_twiddle (c * a) (c * n) inverse = single_twiddle a n inverse := by
  unfold single_twiddle
  have hang : ((if inverse then (1 : ℝ) else -1) * (2 * Real.pi * (c * a : ℕ) / (c * n : ℕ)) : ℝ)
      = ((if inverse then (1 : ℝ) else -1) * (2 * Real.pi * a / n) : ℝ) := by
    have hc' : (c : ℝ) ≠ 0 := Nat.cast_ne_zero.mpr hc
    rcases Nat.eq_zero_or_pos n with h | h
    · subst h
      simp
    · have hn' : (n : ℝ) ≠ 0 := Nat.cast_ne_zero.mpr h.ne'
      push_cast
      field_simp
      ring
  rw [hang]

/-- `dft n` reads only the first `n` entries of its input. -/
theorem dft_ext (n : ℕ) (inverse : Bool) (f g : ℕ → ℂ)
    (h : ∀ j, j < n → f j = g j) (k : ℕ) :
    dft n inverse f k = dft n inverse g k := by
  unfold dft
  exact Finset.sum_congr rfl fun j hj => by rw [h j (Finset.mem_range.mp hj)]

/-- `rotate_90` is multiplication by `j` (inverse) or `−j` (forward). -/
theorem rotate_90_eq_mul (z : ℂ) (inverse : Bool) :
    rotate_90 z inverse = (if inverse then Complex.I else -Complex.I) * z := by
  cases inverse <;>
    · apply Complex.ext <;> simp [rotate_90]

/-! ## Characterization of the decimation loop -/

theorem upd_self (f : ℕ → ℂ) (i : ℕ) (v : ℂ) : upd f i v i = v := by
  simp [upd]

theorem upd_ne (f : ℕ → ℂ) (i : ℕ) (v : ℂ) {j : ℕ} (h : j ≠ i) : upd f i v j = f j := by
  simp [upd, h]

theorem upd_eq (f : ℕ → ℂ) (i : ℕ) (v : ℂ) {j : ℕ} (h : j = i) : upd f i v j = v := by
  simp [upd, h]

theorem iterFor_zero {σ : Type} (body : σ → ℕ → σ) (start : ℕ) (st : σ) :
    iterFor body start 0 st = st := rfl

theorem iterFor_succ {σ : Type} (body : σ → ℕ → σ) (start c : ℕ) (st : σ) :
    iterFor body start (c + 1) st = iterFor body (start + 1) c (body st start) := rfl

/-- Invariant of the decimation loop after the two stores before the loop and the
iterations `i = 1 .. t` have executed.  `st0` is the state on entry to `perform_fft`. -/
structure DecimInv (st0 : SRState) (t : ℕ) (st : SRState) : Prop where
  buf_lo : ∀ j, j < 2 * t + 2 → st.buf j = st0.buf (2 * j)
  buf_hi : ∀ j, 2 * t + 2 ≤ j → st.buf j = st0.buf j
  sq1_lo : ∀ j, j ≤ t → st.sq1 j = st0.buf (4 * j + 1)
  sq1_hi : ∀ j, t < j → st.sq1 j = st0.sq1 j
  sq3_lo : ∀ j, 1 ≤ j → j ≤ t → st.sq3 j = st0.buf (4 * j - 1)
  sq3_hi : ∀ j, j = 0 ∨ t < j → st.sq3 j = st0.sq3 j

theorem decimBody_inv {st0 : SRState} {t : ℕ} {st : SRState} (h : DecimInv st0 t st) :
    DecimInv st0 (t + 1) (decimBody st (t + 1)) := by
  have hr3 : st.buf ((t + 1) * 4 - 1) = st0.buf (4 * (t + 1) - 1) := by
    have := h.buf_hi ((t + 1) * 4 - 1) (by omega)
    rw [this]
    congr 1
    omega
  have hr0 : st.buf ((t + 1) * 4) = st0.buf (2 * ((t + 1) * 2)) := by
    rw [h.buf_hi ((t + 1) * 4) (by omega)]
    congr 1
    omega
  have hr1 : st.buf ((t + 1) * 4 + 1) = st0.buf (4 * (t + 1) + 1) := by
    rw [h.buf_hi ((t + 1) * 4 + 1) (by omega)]
    congr 1
    omega
  have hr2 : st.buf ((t + 1) * 4 + 2) = st0.buf (2 * ((t + 1) * 2 + 1)) := by
    rw [h.buf_hi ((t + 1) * 4 + 2) (by omega)]
    congr 1
    omega
  refine ⟨?_, ?_, ?_, ?_, ?_, ?_⟩
  · intro j hj
    show upd (upd st.buf ((t + 1) * 2) _) ((t + 1) * 2 + 1) _ j = _
    rcases Nat.lt_trichotomy j ((t + 1) * 2) with hlt | heq | hgt
    · rw [upd_ne _ _ _ (by omega), upd_ne _ _ _ (by omega)]
      exact h.buf_lo j (by omega)
    · subst heq
      rw [upd_ne _ _ _ (by omega), upd_self]
      exact hr0
    · have hj' : j = (t + 1) * 2 + 1 := by omega
      subst hj'
      rw [upd_self, upd_ne _ _ _ (by omega)]
      exact hr2
  · intro j hj
    show upd (upd st.buf ((t + 1) * 2) _) ((t + 1) * 2 + 1) _ j = _
    rw [upd_ne _ _ _ (by omega), upd_ne _ _ _ (by omega)]
    exact h.buf_hi j (by omega)
  · intro j hj
    show upd st.sq1 (t + 1) _ j = _
    rcases Nat.eq_or_lt_of_le hj with heq | hlt
    · subst heq
      rw [upd_self, upd_ne _ _ _ (by omega)]
      exact hr1
    · rw [upd_ne _ _ _ (by omega)]
      exact h.sq1_lo j (by omega)
  · intro j hj
    show upd st.sq1 (t + 1) _ j = _
    rw [upd_ne _ _ _ (by omega)]
    exact h.sq1_hi j (by omega)
  · intro j hj1 hjt
    show upd st.sq3 (t + 1) _ j = _
    rcases Nat.eq_or_lt_of_le hjt with heq | hlt
    · subst heq
      rw [upd_self]
      exact hr3
    · rw [upd_ne _ _ _ (by omega)]
      exact h.sq3_lo j hj1 (by omega)
  · intro j hj
    show upd st.sq3 (t + 1) _ j = _
    rw [upd_ne _ _ _ (by omega)]
    exact h.sq3_hi j (by omega)

theorem iterFor_decim_inv (st0 : SRState) :
    ∀ (c t : ℕ) (st : SRState), DecimInv st0 t st →
      DecimInv st0 (t + c) (iterFor decimBody (t + 1) c st) := by
  intro c
  induction c with
  | zero =>
      intro t st h
      simpa [iterFor_zero] using h
  | succ c ih =>
      intro t st h
      rw [iterFor_succ]
      have h1 := decimBody_inv h
      have h2 := ih (t + 1) (decimBody st (t + 1)) h1
      have harith : t + 1 + c = t + (c + 1) := by omega
      rw [harith] at h2
      exact h2

/-- Full characterization of the decimation stage for a buffer of length `4*m`:
it packs the even-indexed samples into `buffer[0..2m)`, leaves `buffer[2m..)`
untouched, packs the samples with index `≡ 1 (mod 4)` into `scratch_quarter1[0..m)`,
and packs the samples with index `≡ 3 (mod 4)` into `scratch_quarter3[0..m)` rotated
so that the sample at index `4m−1` lands at position `0`. -/
theorem decimate_spec (m : ℕ) (hm : 1 ≤ m) (st : SRState) :
    (∀ j, j < 2 * m → (decimate m st).buf j = st.buf (2 * j)) ∧
    (∀ j, 2 * m ≤ j → (decimate m st).buf j = st.buf j) ∧
    (∀ j, j < m → (decimate m st).sq1 j = st.buf (4 * j + 1)) ∧
    (∀ j, m ≤ j → (decimate m st).sq1 j = st.sq1 j) ∧
    ((decimate m st).sq3 0 = st.buf (4 * m - 1)) ∧
    (∀ j, 1 ≤ j → j < m → (decimate m st).sq3 j = st.buf (4 * j - 1)) ∧
    (∀ j, m ≤ j → (decimate m st).sq3 j = st.sq3 j) := by
  have hinv0 : DecimInv st 0
      ⟨upd st.buf 1 (st.buf 2), upd st.sq1 0 (st.buf 1), st.sq3⟩ := by
    refine ⟨?_, ?_, ?_, ?_, ?_, ?_⟩
    · intro j hj
      interval_cases j <;> simp [upd]
    · intro j hj
      show upd st.buf 1 (st.buf 2) j = st.buf j
      rw [upd_ne _ _ _ (by omega)]
    · intro j hj
      interval_cases j
      simp [upd]
    · intro j hj
      show upd st.sq1 0 (st.buf 1) j = st.sq1 j
      rw [upd_ne _ _ _ (by omega)]
    · intro j h1 h0
      omega
    · intro j _
      rfl
  have hinv := iterFor_decim_inv st (m - 1) 0 _ hinv0
  rw [Nat.zero_add] at hinv
  have hfin : iterFor decimBody (0 + 1) (m - 1)
      ⟨upd st.buf 1 (st.buf 2), upd st.sq1 0 (st.buf 1), st.sq3⟩
      = iterFor decimBody 1 (m - 1)
      ⟨upd st.buf 1 (st.buf 2), upd st.sq1 0 (st.buf 1), st.sq3⟩ := by
    norm_num
  rw [hfin] at hinv
  set st1 := iterFor decimBody 1 (m - 1)
      ⟨upd st.buf 1 (st.buf 2), upd st.sq1 0 (st.buf 1), st.sq3⟩ with hst1
  have hdec : decimate m st = ⟨st1.buf, st1.sq1, upd st1.sq3 0 (st1.buf (4 * m - 1))⟩ := rfl
  refine ⟨?_, ?_, ?_, ?_, ?_, ?_, ?_⟩
  · intro j hj
    rw [hdec]
    exact hinv.buf_lo j (by omega)
  · intro j hj
    rw [hdec]
    exact hinv.buf_hi j (by omega)
  · intro j hj
    rw [hdec]
    exact hinv.sq1_lo j (by omega)
  · intro j hj
    rw [hdec]
    exact hinv.sq1_hi j (by omega)
  · rw [hdec]
    show upd st1.sq3 0 (st1.buf (4 * m - 1)) 0 = _
    rw [upd_self]
    exact hinv.buf_hi (4 * m - 1) (by omega)
  · intro j h1 hj
    rw [hdec]
    show upd st1.sq3 0 (st1.buf (4 * m - 1)) j = _
    rw [upd_ne _ _ _ (by omega)]
    exact hinv.sq3_lo j h1 (by omega)
  · intro j hj
    rw [hdec]
    show upd st1.sq3 0 (st1.buf (4 * m - 1)) j = _
    rw [upd_ne _ _ _ (by omega)]
    exact hinv.sq3_hi j (by omega)

/-! ## Characterization of the recombination loop -/

/-- `Σ` of the recombination step `i`: `Wᵢ·O₁'[i] + W*ᵢ·O₃'[i]`, as a function of the
state on entry to the recombination loop. -/
noncomputable def recombSum (tw : ℕ → ℂ) (st0 : SRState) (i : ℕ) : ℂ :=
  tw i * st0.sq1 i + (starRingEnd ℂ) (tw i) * st0.sq3 i

/-- `Δ` of the recombination step `i`: `Wᵢ·O₁'[i] − W*ᵢ·O₃'[i]`. -/
noncomputable def recombDiff (tw : ℕ → ℂ) (st0 : SRState) (i : ℕ) : ℂ :=
  tw i * st0.sq1 i - (starRingEnd ℂ) (tw i) * st0.sq3 i

/-- Invariant of the recombination loop after iterations `0 .. t-1` have executed;
`st0` is the state on entry to the loop. -/
structure RecombInv (inverse : Bool) (tw : ℕ → ℂ) (m : ℕ) (st0 : SRState)
    (t : ℕ) (st : SRState) : Prop where
  done0 : ∀ k, k < t → st.buf k = st0.buf k + recombSum tw st0 k
  done1 : ∀ k, k < t →
    st.buf (k + m) = st0.buf (k + m) + rotate_90 (recombDiff tw st0 k) inverse
  done2 : ∀ k, k < t → st.buf (k + 2 * m) = st0.buf k - recombSum tw st0 k
  done3 : ∀ k, k < t →
    st.buf (k + 3 * m) = st0.buf (k + m) - rotate_90 (recombDiff tw st0 k) inverse
  rest0 : ∀ k, t ≤ k → k < m → st.buf k = st0.buf k
  rest1 : ∀ k, t ≤ k → k < m → st.buf (k + m) = st0.buf (k + m)
  sq1_eq : st.sq1 = st0.sq1
  sq3_eq : st.sq3 = st0.sq3

theorem recombBody_inv {inverse : Bool} {tw : ℕ → ℂ} {m : ℕ} {st0 : SRState}
    {t : ℕ} {st : SRState} (ht : t < m)
    (h : RecombInv inverse tw m st0 t st) :
    RecombInv inverse tw m st0 (t + 1) (recombBody inverse tw (2 * m) m st t) := by
  have hb0 : st.buf t = st0.buf t := h.rest0 t le_rfl ht
  have hb1 : st.buf (t + m) = st0.buf (t + m) := h.rest1 t le_rfl ht
  have hA : st.buf t + (tw t * st.sq1 t + (starRingEnd ℂ) (tw t) * st.sq3 t)
      = st0.buf t + recombSum tw st0 t := by
    rw [hb0, h.sq1_eq, h.sq3_eq, recombSum]
  have hB : st.buf t - (tw t * st.sq1 t + (starRingEnd ℂ) (tw t) * st.sq3 t)
      = st0.buf t - recombSum tw st0 t := by
    rw [hb0, h.sq1_eq, h.sq3_eq, recombSum]
  have hC : st.buf (t + m) +
        rotate_90 (tw t * st.sq1 t - (starRingEnd ℂ) (tw t) * st.sq3 t) inverse
      = st0.buf (t + m) + rotate_90 (recombDiff tw st0 t) inverse := by
    rw [hb1, h.sq1_eq, h.sq3_eq, recombDiff]
  have hD : st.buf (t + m) -
        rotate_90 (tw t * st.sq1 t - (starRingEnd ℂ) (tw t) * st.sq3 t) inverse
      = st0.buf (t + m) - rotate_90 (recombDiff tw st0 t) inverse := by
    rw [hb1, h.sq1_eq, h.sq3_eq, recombDiff]
  refine ⟨?_, ?_, ?_, ?_, ?_, ?_, h.sq1_eq, h.sq3_eq⟩
  · intro k hk
    show upd (upd (upd (upd st.buf t _) (t + 2 * m) _) (t + m) _) (t + m * 3) _ k = _
    rcases Nat.lt_or_ge k t with hlt | hge
    · rw [upd_ne _ _ _ (by omega), upd_ne _ _ _ (by omega), upd_ne _ _ _ (by omega),
        upd_ne _ _ _ (by omega)]
      exact h.done0 k hlt
    · have hk' : k = t := by omega
      subst hk'
      rw [upd_ne _ _ _ (by omega), upd_ne _ _ _ (by omega), upd_ne _ _ _ (by omega),
        upd_self]
      exact hA
  · intro k hk
    show upd (upd (upd (upd st.buf t _) (t + 2 * m) _) (t + m) _) (t + m * 3) _ (k + m) = _
    rcases Nat.lt_or_ge k t with hlt | hge
    · rw [upd_ne _ _ _ (by omega), upd_ne _ _ _ (by omega), upd_ne _ _ _ (by omega),
        upd_ne _ _ _ (by omega)]
      exact h.done1 k hlt
    · have hk' : k = t := by omega
      subst hk'
      rw [upd_ne _ _ _ (by omega), upd_self]
      exact hC
  · intro k hk
    show upd (upd (upd (upd st.buf t _) (t + 2 * m) _) (t + m) _) (t + m * 3) _ (k + 2 * m) = _
    rcases Nat.lt_or_ge k t with hlt | hge
    · rw [upd_ne _ _ _ (by omega), upd_ne _ _ _ (by omega), upd_ne _ _ _ (by omega),
        upd_ne _ _ _ (by omega)]
      exact h.done2 k hlt
    · have hk' : k = t := by omega
      subst hk'
      rw [upd_ne _ _ _ (by omega), upd_ne _ _ _ (by omega), upd_self]
      exact hB
  · intro k hk
    show upd (upd (upd (upd st.buf t _) (t + 2 * m) _) (t + m) _) (t + m * 3) _ (k + 3 * m) = _
    rcases Nat.lt_or_ge k t with hlt | hge
    · rw [upd_ne _ _ _ (by omega), upd_ne _ _ _ (by omega), upd_ne _ _ _ (by omega),
        upd_ne _ _ _ (by omega)]
      exact h.done3 k hlt
    · have hk' : k = t := by omega
      subst hk'
      rw [upd_eq _ _ _ (show k + 3 * m = k + m * 3 by ring)]
      exact hD
  · intro k hk1 hk2
    show upd (upd (upd (upd st.buf t _) (t + 2 * m) _) (t + m) _) (t + m * 3) _ k = _
    rw [upd_ne _ _ _ (by omega), upd_ne _ _ _ (by omega), upd_ne _ _ _ (by omega),
      upd_ne _ _ _ (by omega)]
    exact h.rest0 k (by omega) hk2
  · intro k hk1 hk2
    show upd (upd (upd (upd st.buf t _) (t + 2 * m) _) (t + m) _) (t + m * 3) _ (k + m) = _
    rw [upd_ne _ _ _ (by omega), upd_ne _ _ _ (by omega), upd_ne _ _ _ (by omega),
      upd_ne _ _ _ (by omega)]
    exact h.rest1 k (by omega) hk2

theorem iterFor_recomb_inv (inverse : Bool) (tw : ℕ → ℂ) (m : ℕ) (st0 : SRState) :
    ∀ (c t : ℕ) (st : SRState), t + c ≤ m → RecombInv inverse tw m st0 t st →
      RecombInv inverse tw m st0 (t + c)
        (iterFor (recombBody inverse tw (2 * m) m) t c st) := by
  intro c
  induction c with
  | zero =>
      intro t st _ h
      simpa [iterFor_zero] using h
  | succ c ih =>
      intro t st hc h
      rw [iterFor_succ]
      have h1 := recombBody_inv (by omega) h
      have h2 := ih (t + 1) _ (by omega) h1
      have harith : t + 1 + c = t + (c + 1) := by omega
      rw [harith] at h2
      exact h2

/-- Full characterization of the recombination loop: for every `k < m` it writes the
four combinations `E'[k] ± Σ` and `E'[k+m] ± Δ'` to `buffer[k]`, `buffer[k+2m]`,
`buffer[k+m]`, `buffer[k+3m]`, and nothing else changes. -/
theorem recombine_spec (inverse : Bool) (tw : ℕ → ℂ) (m : ℕ) (st : SRState) :
    (∀ k, k < m →
      (recombine inverse tw m st).buf k = st.buf k + recombSum tw st k ∧
      (recombine inverse tw m st).buf (k + 2 * m) = st.buf k - recombSum tw st k ∧
      (recombine inverse tw m st).buf (k + m)
        = st.buf (k + m) + rotate_90 (recombDiff tw st k) inverse ∧
      (recombine inverse tw m st).buf (k + 3 * m)
        = st.buf (k + m) - rotate_90 (recombDiff tw st k) inverse) ∧
    (recombine inverse tw m st).sq1 = st.sq1 ∧
    (recombine inverse tw m st).sq3 = st.sq3 := by
  have h0 : RecombInv inverse tw m st 0 st := by
    refine ⟨?_, ?_, ?_, ?_, ?_, ?_, rfl, rfl⟩ <;> intros <;> first | omega | rfl
  have hinv := iterFor_recomb_inv inverse tw m st m 0 st (by omega) h0
  rw [Nat.zero_add] at hinv
  have hrec : recombine inverse tw m st = iterFor (recombBody inverse tw (2 * m) m) 0 m st := rfl
  refine ⟨?_, ?_, ?_⟩
  · intro k hk
    rw [hrec]
    exact ⟨hinv.done0 k hk, hinv.done2 k hk, hinv.done1 k hk, hinv.done3 k hk⟩
  · rw [hrec]
    exact hinv.sq1_eq
  · rw [hrec]
    exact hinv.sq3_eq

/-- `perform_fft` is exactly decimation, then the inner transforms, then
recombination, once `len = 4*m` fixes `half_len = 2m` and `quarter_len = m`. -/
theorem perform_fft_eq (self : SplitRadix) (m : ℕ) (hlen : self.len = 4 * m)
    (st : SRState) :
    self.perform_fft st = recombine self.inverse self.twiddles m
      (innerStage self.fft_half self.fft_quarter (2 * m) m (decimate m st)) := by
  unfold SplitRadix.perform_fft recombine
  rw [hlen]
  have h2 : 4 * m / 2 = 2 * m := by omega
  have h4 : 4 * m / 4 = m := by omega
  rw [h2, h4]

/-- Concrete inner transform used by witnesses: the exact DFT of the advertised
length and direction (what `DFT::new(len, inverse)` computes, as in the unit tests). -/
noncomputable def innerD (n : ℕ) (inverse : Bool) : InnerFft :=
  ⟨n, inverse, dft n inverse⟩

/-- Concrete scalar split-radix handle of length 8 used by witnesses; its fields are
exactly what `SplitRadix::new(DFT::new(4, false), DFT::new(2, false))` produces. -/
noncomputable def handle8 : SplitRadix :=
  { twiddles := fun i => single_twiddle i 8 false
    fft_half := innerD 4 false
    fft_quarter := innerD 2 false
    len := 8
    inverse := false }

/-- Concrete buffers used by witnesses. -/
noncomputable def st0ex : SRState :=
  ⟨fun n => (n : ℂ), fun _ => 0, fun _ => 0⟩

/-- **C2.**  For every buffer of length `N = 4m`, the scalar split-radix performs
exactly the §4.2 steps: `perform_fft` is decimation–inner-transforms–recombination;
the decimation packs the even-indexed samples into `buffer[0..2m)`, the samples with
index `≡ 1 (mod 4)` into `scratch_quarter1[0..m)`, and the samples with index
`≡ 3 (mod 4)` into `scratch_quarter3[0..m)` rotated so that the sample at index
`N−1` becomes `O₃[0]`; and for each `k < m` the recombination writes
`b[k] = E'[k] + Σ`, `b[k+2m] = E'[k] − Σ`, `b[k+m] = E'[k+m] + Δ'`,
`b[k+3m] = E'[k+m] − Δ'` where `Σ = Wₖ·O₁'[k] + W*ₖ·O₃'[k]`,
`Δ = Wₖ·O₁'[k] − W*ₖ·O₃'[k]` and `Δ' = j·Δ` for inverse, `−j·Δ` for forward. -/
theorem splitRadix_performs_spec_steps (self : SplitRadix) (m : ℕ) (hm : 1 ≤ m)
    (hlen : self.len = 4 * m) (st : SRState) :
    (self.perform_fft st = recombine self.inverse self.twiddles m
        (innerStage self.fft_half self.fft_quarter (2 * m) m (decimate m st))) ∧
    (∀ j, j < 2 * m → (decimate m st).buf j = st.buf (2 * j)) ∧
    (∀ j, j < m → (decimate m st).sq1 j = st.buf (4 * j + 1)) ∧
    ((decimate m st).sq3 0 = st.buf (4 * m - 1)) ∧
    (∀ j, 1 ≤ j → j < m → (decimate m st).sq3 j = st.buf (4 * j - 1)) ∧
    (∀ (st1 : SRState) (k : ℕ), k < m →
      (recombine self.inverse self.twiddles m st1).buf k
        = st1.buf k + (self.twiddles k * st1.sq1 k
            + (starRingEnd ℂ) (self.twiddles k) * st1.sq3 k) ∧
      (recombine self.inverse self.twiddles m st1).buf (k + 2 * m)
        = st1.buf k - (self.twiddles k * st1.sq1 k
            + (starRingEnd ℂ) (self.twiddles k) * st1.sq3 k) ∧
      (recombine self.inverse self.twiddles m st1).buf (k + m)
        = st1.buf (k + m) + (if self.inverse then Complex.I else -Complex.I) *
            (self.twiddles k * st1.sq1 k
              - (starRingEnd ℂ) (self.twiddles k) * st1.sq3 k) ∧
      (recombine self.inverse self.twiddles m st1).buf (k + 3 * m)
        = st1.buf (k + m) - (if self.inverse then Complex.I else -Complex.I) *
            (self.twiddles k * st1.sq1 k
              - (starRingEnd ℂ) (self.twiddles k) * st1.sq3 k)) := by
  obtain ⟨hbl, _, hs1, _, h30, h3, _⟩ := decimate_spec m hm st
  refine ⟨perform_fft_eq self m hlen st, hbl, hs1, h30, h3, ?_⟩
  intro st1 k hk
  obtain ⟨hdone, _, _⟩ := recombine_spec self.inverse self.twiddles m st1
  obtain ⟨h0, h2, h1, h3'⟩ := hdone k hk
  refine ⟨h0, h2, ?_, ?_⟩
  · rw [h1, rotate_90_eq_mul]
    rfl
  · rw [h3', rotate_90_eq_mul]
    rfl

/-- Witness for C2: the stage decomposition holds for the concrete length-8 handle
on a concrete buffer. -/
theorem splitRadix_performs_spec_steps_witness :
    handle8.perform_fft st0ex = recombine handle8.inverse handle8.twiddles 2
      (innerStage handle8.fft_half handle8.fft_quarter (2 * 2) 2 (decimate 2 st0ex)) :=
  (splitRadix_performs_spec_steps handle8 2 (by decide) rfl st0ex).1

/-! ## The split-radix DFT identity -/

/-- Splitting a sum over `[0, 4m)` into even indices, indices `≡ 1 (mod 4)` and
indices `≡ 3 (mod 4)`. -/
theorem sum_split_4m (m : ℕ) (f : ℕ → ℂ) :
    ∑ n ∈ Finset.range (4 * m), f n
      = (∑ j ∈ Finset.range (2 * m), f (2 * j))
        + (∑ j ∈ Finset.range m, f (4 * j + 1))
        + (∑ j ∈ Finset.range m, f (4 * j + 3)) := by
  induction m with
  | zero => simp
  | succ m ih =>
      have h4 : 4 * (m + 1) = 4 * m + 1 + 1 + 1 + 1 := by ring
      have h2 : 2 * (m + 1) = 2 * m + 1 + 1 := by ring
      rw [h4, h2, Finset.sum_range_succ, Finset.sum_range_succ, Finset.sum_range_succ,
        Finset.sum_range_succ, Finset.sum_range_succ, Finset.sum_range_succ,
        Finset.sum_range_succ, Finset.sum_range_succ, ih]
      have e1 : 2 * (2 * m) = 4 * m := by ring
      have e2 : 2 * (2 * m + 1) = 4 * m + 1 + 1 := by ring
      have e3 : 4 * m + 1 + 1 + 1 = 4 * m + 3 := by ring
      rw [e1, e2, e3]
      ring

/-- The `n`-point DFT is `n`-periodic in the output index. -/
theorem dft_period (n : ℕ) (hn : n ≠ 0) (inverse : Bool) (f : ℕ → ℂ) (k : ℕ) :
    dft n inverse f (k + n) = dft n inverse f k := by
  unfold dft
  refine Finset.sum_congr rfl fun j hj => ?_
  congr 1
  have h : (k + n) * j = k * j + j * n := by ring
  rw [h, ← single_twiddle_mul, single_twiddle_mul_self _ _ hn, mul_one]

theorem dft_period_mul (n : ℕ) (hn : n ≠ 0) (inverse : Bool) (f : ℕ → ℂ) (k c : ℕ) :
    dft n inverse f (k + c * n) = dft n inverse f k := by
  induction c with
  | zero => simp
  | succ c ih =>
      have h : k + (c + 1) * n = (k + c * n) + n := by ring
      rw [h, dft_period n hn, ih]

/-- The even part of the size-`4m` DFT sum is a size-`2m` DFT of the even samples. -/
theorem even_part (m : ℕ) (inverse : Bool) (x : ℕ → ℂ) (K : ℕ) :
    ∑ j ∈ Finset.range (2 * m), x (2 * j) * single_twiddle (K * (2 * j)) (4 * m) inverse
      = dft (2 * m) inverse (fun j => x (2 * j)) K := by
  unfold dft
  refine Finset.sum_congr rfl fun j hj => ?_
  congr 1
  have h1 : K * (2 * j) = 2 * (K * j) := by ring
  have h2 : 4 * m = 2 * (2 * m) := by ring
  rw [h1, h2, single_twiddle_scale 2 _ _ (by norm_num)]

/-- The `≡ 1 (mod 4)` part of the size-`4m` DFT sum is `W_K` times a size-`m` DFT. -/
theorem quarter1_part (m : ℕ) (inverse : Bool) (x : ℕ → ℂ) (K : ℕ) :
    ∑ j ∈ Finset.range m, x (4 * j + 1) * single_twiddle (K * (4 * j + 1)) (4 * m) inverse
      = single_twiddle K (4 * m) inverse * dft m inverse (fun j => x (4 * j + 1)) K := by
  unfold dft
  rw [Finset.mul_sum]
  refine Finset.sum_congr rfl fun j hj => ?_
  have h1 : K * (4 * j + 1) = 4 * (K * j) + K := by ring
  rw [h1, ← single_twiddle_mul, show (4 * m) = 4 * m from rfl,
    single_twiddle_scale 4 (K * j) m (by norm_num)]
  ring

/-- The `≡ 3 (mod 4)` part of the size-`4m` DFT sum is `W_{3K}` times a size-`m` DFT. -/
theorem quarter3_part (m : ℕ) (inverse : Bool) (x : ℕ → ℂ) (K : ℕ) :
    ∑ j ∈ Finset.range m, x (4 * j + 3) * single_twiddle (K * (4 * j + 3)) (4 * m) inverse
      = single_twiddle (3 * K) (4 * m) inverse * dft m inverse (fun j => x (4 * j + 3)) K := by
  unfold dft
  rw [Finset.mul_sum]
  refine Finset.sum_congr rfl fun j hj => ?_
  have h1 : K * (4 * j + 3) = 4 * (K * j) + 3 * K := by ring
  rw [h1, ← single_twiddle_mul, single_twiddle_scale 4 (K * j) m (by norm_num)]
  ring

/-- DFT of the rotated stream: delaying a length-`m` stream by one (with wrap-around,
so the last sample becomes the first) multiplies bin `k` by the size-`m` twiddle. -/
theorem dft_rotated (m : ℕ) (hm : 1 ≤ m) (inverse : Bool) (z : ℕ → ℂ) (k : ℕ) :
    dft m inverse (fun j => if j = 0 then z (m - 1) else z (j - 1)) k
      = single_twiddle k m inverse * dft m inverse z k := by
  obtain ⟨mm, rfl⟩ : ∃ mm, m = mm + 1 := ⟨m - 1, by omega⟩
  unfold dft
  rw [Finset.sum_range_succ', Finset.mul_sum, Finset.sum_range_succ]
  have hterm : ∀ j, (if j + 1 = 0 then z (mm + 1 - 1) else z (j + 1 - 1))
        * single_twiddle (k * (j + 1)) (mm + 1) inverse
      = single_twiddle k (mm + 1) inverse * (z j * single_twiddle (k * j) (mm + 1) inverse) := by
    intro j
    have hne : ¬(j + 1 = 0) := by omega
    rw [if_neg hne]
    have h1 : k * (j + 1) = k + k * j := by ring
    rw [show j + 1 - 1 = j from rfl, h1, ← single_twiddle_mul]
    ring
  rw [Finset.sum_congr rfl fun j _ => hterm j]
  have hlast : (if (0 : ℕ) = 0 then z (mm + 1 - 1) else z (0 - 1))
        * single_twiddle (k * 0) (mm + 1) inverse
      = single_twiddle k (mm + 1) inverse
        * (z mm * single_twiddle (k * mm) (mm + 1) inverse) := by
    rw [if_pos rfl, Nat.mul_zero, single_twiddle_zero, mul_one]
    have h1 : single_twiddle k (mm + 1) inverse * single_twiddle (k * mm) (mm + 1) inverse
        = single_twiddle (k * (mm + 1)) (mm + 1) inverse := by
      rw [single_twiddle_mul]
      congr 1
      ring
    calc z (mm + 1 - 1)
        = z mm * (single_twiddle k (mm + 1) inverse * single_twiddle (k * mm) (mm + 1) inverse) := by
          rw [h1, single_twiddle_mul_self k (mm + 1) (by omega), mul_one,
            Nat.add_sub_cancel]
      _ = single_twiddle k (mm + 1) inverse
            * (z mm * single_twiddle (k * mm) (mm + 1) inverse) := by ring
  rw [hlast]

/-- `W̄ₖ · W₄ₖ = W₃ₖ` for size-`N` twiddles. -/
theorem conj_tw_four (k n : ℕ) (inverse : Bool) :
    (starRingEnd ℂ) (single_twiddle k n inverse) * single_twiddle (4 * k) n inverse
      = single_twiddle (3 * k) n inverse := by
  have h4 : (4 * k) = k + 3 * k := by ring
  rw [h4, ← single_twiddle_mul, ← mul_assoc, single_twiddle_conj_mul, one_mul]

/-- The split-radix identity over exact complex arithmetic: the size-`4m` DFT at the
four output indices `k`, `k+m`, `k+2m`, `k+3m` (`k < m`) in terms of the size-`2m`
DFT `E` of the even samples and the size-`m` DFTs `O1`, `O3` of the odd sample
streams, with `ρ = W_m` the quarter rotation. -/
theorem splitRadix_identity (m : ℕ) (hm : 1 ≤ m) (inverse : Bool) (x : ℕ → ℂ) (k : ℕ) :
    (dft (4 * m) inverse x k
      = dft (2 * m) inverse (fun j => x (2 * j)) k
        + (single_twiddle k (4 * m) inverse * dft m inverse (fun j => x (4 * j + 1)) k
          + single_twiddle (3 * k) (4 * m) inverse
            * dft m inverse (fun j => x (4 * j + 3)) k)) ∧
    (dft (4 * m) inverse x (k + m)
      = dft (2 * m) inverse (fun j => x (2 * j)) (k + m)
        + single_twiddle m (4 * m) inverse
          * (single_twiddle k (4 * m) inverse * dft m inverse (fun j => x (4 * j + 1)) k
            - single_twiddle (3 * k) (4 * m) inverse
              * dft m inverse (fun j => x (4 * j + 3)) k)) ∧
    (dft (4 * m) inverse x (k + 2 * m)
      = dft (2 * m) inverse (fun j => x (2 * j)) k
        - (single_twiddle k (4 * m) inverse * dft m inverse (fun j => x (4 * j + 1)) k
          + single_twiddle (3 * k) (4 * m) inverse
            * dft m inverse (fun j => x (4 * j + 3)) k)) ∧
    (dft (4 * m) inverse x (k + 3 * m)
      = dft (2 * m) inverse (fun j => x (2 * j)) (k + m)
        - single_twiddle m (4 * m) inverse
          * (single_twiddle k (4 * m) inverse * dft m inverse (fun j => x (4 * j + 1)) k
            - single_twiddle (3 * k) (4 * m) inverse
              * dft m inverse (fun j => x (4 * j + 3)) k)) := by
  have hN : 4 * m ≠ 0 := by omega
  have h2m : 2 * m ≠ 0 := by omega
  have hm0 : m ≠ 0 := by omega
  have key : ∀ K, dft (4 * m) inverse x K
      = dft (2 * m) inverse (fun j => x (2 * j)) K
        + single_twiddle K (4 * m) inverse * dft m inverse (fun j => x (4 * j + 1)) K
        + single_twiddle (3 * K) (4 * m) inverse
          * dft m inverse (fun j => x (4 * j + 3)) K := by
    intro K
    show (∑ j ∈ Finset.range (4 * m), x j * single_twiddle (K * j) (4 * m) inverse) = _
    rw [sum_split_4m m (fun n => x n * single_twiddle (K * n) (4 * m) inverse)]
    rw [even_part, quarter1_part, quarter3_part]
  have hT4 : single_twiddle (4 * m) (4 * m) inverse = 1 := single_twiddle_self _ hN inverse
  have hT2 : single_twiddle (2 * m) (4 * m) inverse = -1 := single_twiddle_half m hm0 inverse
  have hT3m : single_twiddle (3 * m) (4 * m) inverse
      = -single_twiddle m (4 * m) inverse := by
    rw [show 3 * m = m + 2 * m by ring, ← single_twiddle_mul, hT2]
    ring
  have hT6 : single_twiddle (6 * m) (4 * m) inverse = -1 := by
    rw [show 6 * m = 2 * m + 4 * m by ring, ← single_twiddle_mul, hT2, hT4]
    norm_num
  have hT9 : single_twiddle (9 * m) (4 * m) inverse = single_twiddle m (4 * m) inverse := by
    rw [show 9 * m = m + 2 * (4 * m) by ring, ← single_twiddle_mul,
      single_twiddle_mul_self 2 (4 * m) hN, mul_one]
  refine ⟨?_, ?_, ?_, ?_⟩
  · rw [key k]
    ring
  · have h1 := key (k + m)
    rw [dft_period m hm0, dft_period m hm0, ← single_twiddle_mul k m,
      show 3 * (k + m) = 3 * k + 3 * m by ring, ← single_twiddle_mul (3 * k) (3 * m),
      hT3m] at h1
    rw [h1]
    ring
  · have h2 := key (k + 2 * m)
    rw [show k + 2 * m = k + 2 * m from rfl] at h2
    rw [dft_period_mul m hm0 inverse _ k 2, dft_period_mul m hm0 inverse _ k 2,
      ← single_twiddle_mul k (2 * m),
      show 3 * (k + 2 * m) = 3 * k + 6 * m by ring, ← single_twiddle_mul (3 * k) (6 * m),
      hT2, hT6, dft_period (2 * m) h2m] at h2
    rw [h2]
    ring
  · have h3 := key (k + 3 * m)
    rw [dft_period_mul m hm0 inverse _ k 3, dft_period_mul m hm0 inverse _ k 3,
      ← single_twiddle_mul k (3 * m),
      show 3 * (k + 3 * m) = 3 * k + 9 * m by ring, ← single_twiddle_mul (3 * k) (9 * m),
      hT3m, hT9,
      show k + 3 * m = k + m + 2 * m by ring, dft_period (2 * m) h2m] at h3
    rw [show k + 3 * m = k + m + 2 * m by ring, h3]
    ring

/-- **C1.**  For every buffer of length `N = 4m` (`m ≥ 2`), assuming exact arithmetic,
assuming the twiddle table holds `Wₖ = exp(−2πi·k·s/N)` and the inner half and quarter
transforms compute the exact DFT of lengths `N/2` and `N/4` in the same direction,
`SplitRadix::perform_fft` overwrites the buffer with the exact unnormalized DFT of its
input (hence each unit impulse maps to the corresponding column of the DFT matrix). -/
theorem splitRadix_computes_dft (self : SplitRadix) (m : ℕ) (hm : 2 ≤ m)
    (hlen : self.len = 4 * m)
    (htw : ∀ i, i < m → self.twiddles i = single_twiddle i (4 * m) self.inverse)
    (hH : ∀ (f : ℕ → ℂ) (j : ℕ), j < 2 * m →
      self.fft_half.apply f j = dft (2 * m) self.inverse f j)
    (hQ : ∀ (f : ℕ → ℂ) (j : ℕ), j < m →
      self.fft_quarter.apply f j = dft m self.inverse f j)
    (st : SRState) (k : ℕ) (hk : k < 4 * m) :
    (self.perform_fft st).buf k = dft (4 * m) self.inverse st.buf k := by
  have hm1 : 1 ≤ m := by omega
  have hm0 : m ≠ 0 := by omega
  obtain ⟨hbuf_lo, _, hsq1_lo, _, hsq3_0, hsq3_lo, _⟩ := decimate_spec m hm1 st
  rw [perform_fft_eq self m hlen st]
  set inv := self.inverse with hinv
  set std := decimate m st with hstd
  set st1 := innerStage self.fft_half self.fft_quarter (2 * m) m std with hst1
  have hst1buf : ∀ j, j < 2 * m →
      st1.buf j = dft (2 * m) inv (fun t => st.buf (2 * t)) j := by
    intro j hj
    rw [hst1]
    simp only [innerStage, overlay]
    rw [if_pos hj, hH _ j hj]
    exact dft_ext _ _ _ _ (fun t ht => hbuf_lo t ht) j
  have hst1sq1 : ∀ i, i < m →
      st1.sq1 i = dft m inv (fun t => st.buf (4 * t + 1)) i := by
    intro i hi
    rw [hst1]
    simp only [innerStage, overlay]
    rw [if_pos hi, hQ _ i hi]
    exact dft_ext _ _ _ _ (fun t ht => hsq1_lo t ht) i
  have hst1sq3 : ∀ i, i < m →
      st1.sq3 i = single_twiddle (4 * i) (4 * m) inv
        * dft m inv (fun t => st.buf (4 * t + 3)) i := by
    intro i hi
    rw [hst1]
    simp only [innerStage, overlay]
    rw [if_pos hi, hQ _ i hi]
    have hext : dft m inv std.sq3 i
        = dft m inv (fun j => if j = 0 then st.buf (4 * (m - 1) + 3)
            else st.buf (4 * (j - 1) + 3)) i := by
      apply dft_ext
      intro t ht
      by_cases h0 : t = 0
      · subst h0
        rw [if_pos rfl, hsq3_0]
        congr 1
        omega
      · rw [if_neg h0, hsq3_lo t (by omega) ht]
        congr 1
        omega
    have hrot := dft_rotated m hm1 inv (fun t => st.buf (4 * t + 3)) i
    rw [hext, hrot, ← single_twiddle_scale 4 i m (by norm_num)]
  obtain ⟨c, kk, hkk, hkeq⟩ : ∃ c kk, kk < m ∧ k = kk + c * m := by
    refine ⟨k / m, k % m, Nat.mod_lt _ (by omega), ?_⟩
    rw [Nat.mul_comm]
    exact (Nat.mod_add_div k m).symm
  have hc : c < 4 := by
    by_contra hge
    push_neg at hge
    have h4c : 4 * m ≤ c * m := Nat.mul_le_mul_right m (by omega)
    omega
  obtain ⟨hrc, _, _⟩ := recombine_spec inv self.twiddles m st1
  obtain ⟨hr0, hr2, hr1, hr3⟩ := hrc kk hkk
  have hid := splitRadix_identity m hm1 inv st.buf kk
  have hE0 := hst1buf kk (by omega)
  have hE1 := hst1buf (kk + m) (by omega)
  have hO1 := hst1sq1 kk hkk
  have hO3 := hst1sq3 kk hkk
  have hcj := conj_tw_four kk (4 * m) inv
  have hρ : single_twiddle m (4 * m) inv = if inv then Complex.I else -Complex.I :=
    single_twiddle_quarter m hm0 inv
  have htwk := htw kk hkk
  subst hkeq
  have hc4 : c = 0 ∨ c = 1 ∨ c = 2 ∨ c = 3 := by omega
  rcases hc4 with rfl | rfl | rfl | rfl
  · rw [show kk + 0 * m = kk by ring, hr0, hid.1, recombSum, htwk, hE0, hO1, hO3]
    linear_combination (dft m inv (fun t => st.buf (4 * t + 3)) kk) * hcj
  · rw [show kk + 1 * m = kk + m by ring, hr1, hid.2.1, rotate_90_eq_mul, ← hρ,
      recombDiff, htwk, hE1, hO1, hO3]
    linear_combination (-(single_twiddle m (4 * m) inv
      * dft m inv (fun t => st.buf (4 * t + 3)) kk)) * hcj
  · rw [hr2, hid.2.2.1, recombSum, htwk, hE0, hO1, hO3]
    linear_combination (-(dft m inv (fun t => st.buf (4 * t + 3)) kk)) * hcj
  · rw [hr3, hid.2.2.2, rotate_90_eq_mul, ← hρ, recombDiff, htwk, hE1, hO1, hO3]
    linear_combination (single_twiddle m (4 * m) inv
      * dft m inv (fun t => st.buf (4 * t + 3)) kk) * hcj

/-- Witness for C1: the concrete length-8 forward handle (whose inner transforms are
the exact 4- and 2-point DFTs) transforms a concrete buffer into its exact 8-point
DFT. -/
theorem splitRadix_computes_dft_witness :
    (handle8.perform_fft st0ex).buf 3 = dft (4 * 2) false st0ex.buf 3 :=
  splitRadix_computes_dft handle8 2 (by norm_num) rfl
    (fun i _ => rfl) (fun f j _ => rfl) (fun f j _ => rfl) st0ex 3 (by norm_num)

/-! ## AVX vectors and intrinsics

A 256-bit vector of 8 packed single floats is modelled as `Fin 8 → ℝ` (exact
arithmetic).  Each intrinsic used by the sources is modelled by its Intel semantics;
the two `_mm256_permute2f128_ps` immediates and the three `_mm256_permute_ps`
immediates that the sources use are given their own definitions. -/

abbrev M256 := Fin 8 → ℝ

/-- `load_avx_f32!(array, index)`: `_mm256_loadu_ps` of 8 consecutive floats starting
at complex slot `index` of an interleaved `Complex<f32>` buffer. -/
def load_avx_f32 (f : ℕ → ℂ) (idx : ℕ) : M256 :=
  fun j => if j.val % 2 = 0 then (f (idx + j.val / 2)).re else (f (idx + j.val / 2)).im

/-- `store_avx_f32!(array, index, v)`: `_mm256_storeu_ps` of a vector into complex
slots `index .. index+4`. -/
def store_avx_f32 (f : ℕ → ℂ) (idx : ℕ) (v : M256) : ℕ → ℂ :=
  fun n =>
    if h : idx ≤ n ∧ n < idx + 4 then
      ⟨v ⟨2 * (n - idx), by omega⟩, v ⟨2 * (n - idx) + 1, by omega⟩⟩
    else f n

/-- The 4 complex numbers held by a vector of 8 interleaved floats. -/
def cvec (v : M256) (t : Fin 4) : ℂ :=
  ⟨v ⟨2 * t.val, by have := t.isLt; omega⟩, v ⟨2 * t.val + 1, by have := t.isLt; omega⟩⟩

/-- `_mm256_permute2f128_ps(a, b, 0x20)`: low 128-bit half of `a`, then low half of `b`. -/
def mm256_permute2f128_0x20 (a b : M256) : M256 :=
  fun j => if h : j.val < 4 then a ⟨j.val, by omega⟩ else b ⟨j.val - 4, by have := j.isLt; omega⟩

/-- `_mm256_permute2f128_ps(a, b, 0x31)`: high 128-bit half of `a`, then high half of `b`. -/
def mm256_permute2f128_0x31 (a b : M256) : M256 :=
  fun j => if h : j.val < 4 then a ⟨j.val + 4, by omega⟩ else b j

/-- `_mm256_permute_ps` with a generic in-lane selector `(sel0, sel1, sel2, sel3)`. -/
def perm4 (sel0 sel1 sel2 sel3 : ℕ) (a : M256) (j : Fin 8) : ℝ :=
  a ⟨4 * (j.val / 4) +
      (if j.val % 4 = 0 then sel0 else if j.val % 4 = 1 then sel1
        else if j.val % 4 = 2 then sel2 else sel3) % 4,
    by
      have h1 := j.isLt
      omega⟩

/-- `_mm256_permute_ps(a, 0xD8)`: per-lane selector `(0, 2, 1, 3)`. -/
def mm256_permute_0xD8 (a : M256) : M256 := perm4 0 2 1 3 a

/-- `_mm256_permute_ps(a, 0xB1)`: per-lane selector `(1, 0, 3, 2)` (swap re/im). -/
def mm256_permute_0xB1 (a : M256) : M256 := perm4 1 0 3 2 a

/-- `_mm256_permute_ps(a, 0xB4)`: per-lane selector `(0, 1, 3, 2)`. -/
def mm256_permute_0xB4 (a : M256) : M256 := perm4 0 1 3 2 a

/-- `_mm256_unpacklo_ps`. -/
def mm256_unpacklo_ps (a b : M256) : M256 :=
  fun j => (if j.val % 2 = 0 then a else b)
    ⟨4 * (j.val / 4) + j.val % 4 / 2, by have := j.isLt; omega⟩

/-- `_mm256_unpackhi_ps`. -/
def mm256_unpackhi_ps (a b : M256) : M256 :=
  fun j => (if j.val % 2 = 0 then a else b)
    ⟨4 * (j.val / 4) + 2 + j.val % 4 / 2, by have := j.isLt; omega⟩

/-- `_mm256_moveldup_ps`: duplicate even-indexed floats. -/
def mm256_moveldup_ps (a : M256) : M256 :=
  fun j => a ⟨2 * (j.val / 2), by have := j.isLt; omega⟩

/-- `_mm256_movehdup_ps`: duplicate odd-indexed floats. -/
def mm256_movehdup_ps (a : M256) : M256 :=
  fun j => a ⟨2 * (j.val / 2) + 1, by have := j.isLt; omega⟩

noncomputable def mm256_add_ps (a b : M256) : M256 := fun j => a j + b j

noncomputable def mm256_sub_ps (a b : M256) : M256 := fun j => a j - b j

noncomputable def mm256_mul_ps (a b : M256) : M256 := fun j => a j * b j

/-- `_mm256_xor_ps(a, _mm256_set1_ps(-0.0))`: flip the sign of every lane. -/
noncomputable def mm256_negate_ps (a : M256) : M256 := fun j => -(a j)

/-- `_mm256_blend_ps`: lane `j` comes from `b` when bit `j` of `imm` is set. -/
def mm256_blend_ps (imm : ℕ) (a b : M256) : M256 :=
  fun j => if (imm >>> j.val) % 2 = 1 then b j else a j

/-- `_mm256_fmaddsub_ps`: `a*b − c` in even lanes, `a*b + c` in odd lanes. -/
noncomputable def mm256_fmaddsub_ps (a b c : M256) : M256 :=
  fun j => if j.val % 2 = 0 then a j * b j - c j else a j * b j + c j

/-- `_mm256_fmsubadd_ps`: `a*b + c` in even lanes, `a*b − c` in odd lanes. -/
noncomputable def mm256_fmsubadd_ps (a b c : M256) : M256 :=
  fun j => if j.val % 2 = 0 then a j * b j + c j else a j * b j - c j

/-! ## The SIMD building-block macros (split_radix.rs lines 163–433) -/

/-- `split_evens_f32!`: 2×N → N×2 transpose splitting 8 complex into evens and odds. -/
def split_evens_f32 (row0 row1 : M256) : M256 × M256 :=
  let permuted0 := mm256_permute2f128_0x20 row0 row1
  let permuted1 := mm256_permute2f128_0x31 row0 row1
  let unpacked1 := mm256_unpackhi_ps permuted0 permuted1
  let unpacked0 := mm256_unpacklo_ps permuted0 permuted1
  let output1 := mm256_permute_0xD8 unpacked1
  let output0 := mm256_permute_0xD8 unpacked0
  (output0, output1)

/-- `complex_multiply_f32!`. -/
noncomputable def complex_multiply_f32 (l r : M256) : M256 :=
  let left_real := mm256_moveldup_ps l
  let left_imag := mm256_movehdup_ps l
  let right_shuffled := mm256_permute_0xB1 r
  let output_right := mm256_mul_ps left_imag right_shuffled
  mm256_fmaddsub_ps left_real r output_right

/-- `complex_conj_multiply_f32!` (multiplies by the conjugate of `l`). -/
noncomputable def complex_conj_multiply_f32 (l r : M256) : M256 :=
  let left_real := mm256_moveldup_ps l
  let left_imag := mm256_movehdup_ps l
  let right_shuffled := mm256_permute_0xB1 r
  let output_right := mm256_mul_ps left_imag right_shuffled
  mm256_fmsubadd_ps left_real r output_right

/-- `column_butterfly2_avx_f32!`. -/
noncomputable def column_butterfly2_avx_f32 (row0 row1 : M256) : M256 × M256 :=
  (mm256_add_ps row0 row1, mm256_sub_ps row0 row1)

/-- `column_butterfly2_negaterow1_avx_f32!`. -/
noncomputable def column_butterfly2_negaterow1_avx_f32 (row0 row1 : M256) : M256 × M256 :=
  (mm256_sub_ps row0 row1, mm256_add_ps row0 row1)

/-- `butterfly4_twiddle_avx_f32!`: rotate every complex element by 90°. -/
noncomputable def butterfly4_twiddle_avx_f32 (elements : M256) (inverse : Bool) : M256 :=
  let elements_swapped := mm256_permute_0xB1 elements
  let elements_negated := mm256_negate_ps elements_swapped
  if inverse then mm256_blend_ps 0x55 elements_swapped elements_negated
  else mm256_blend_ps 0xAA elements_swapped elements_negated

/-- `butterfly4_twiddle_alternating_avx_f32!`: rotate the odd complex elements by 90°. -/
noncomputable def butterfly4_twiddle_alternating_avx_f32 (elements : M256) (inverse : Bool) : M256 :=
  let elements_swapped := mm256_permute_0xB4 elements
  let elements_negated := mm256_negate_ps elements_swapped
  if inverse then mm256_blend_ps 0x44 elements_swapped elements_negated
  else mm256_blend_ps 0x88 elements_swapped elements_negated

/-- `butterfly8_avx_f32!`. -/
noncomputable def butterfly8_avx_f32 (row0 row1 twiddles : M256) (inverse : Bool) :
    M256 × M256 :=
  let bf := column_butterfly2_avx_f32 row0 row1
  let intermediate0 := bf.1
  let intermediate1 := complex_multiply_f32 bf.2 twiddles
  let permuted0 := mm256_permute2f128_0x20 intermediate0 intermediate1
  let permuted1 := mm256_permute2f128_0x31 intermediate0 intermediate1
  let postbf := column_butterfly2_avx_f32 permuted0 permuted1
  let postbutterfly0 := postbf.1
  let postbutterfly1 := butterfly4_twiddle_alternating_avx_f32 postbf.2 inverse
  let unpermuted0 := mm256_permute2f128_0x20 postbutterfly0 postbutterfly1
  let unpermuted1 := mm256_permute2f128_0x31 postbutterfly0 postbutterfly1
  let unpacked0 := mm256_unpacklo_ps unpermuted0 unpermuted1
  let unpacked1 := mm256_unpackhi_ps unpermuted0 unpermuted1
  let swapped0 := mm256_permute_0xD8 unpacked0
  let swapped1 := mm256_permute_0xD8 unpacked1
  column_butterfly2_avx_f32 swapped0 swapped1

/-- `column_butterfly4_avx_f32!`. -/
noncomputable def column_butterfly4_avx_f32 (row0 row1 row2 row3 : M256) (inverse : Bool) :
    M256 × M256 × M256 × M256 :=
  let bf02 := column_butterfly2_avx_f32 row0 row2
  let bf13 := column_butterfly2_avx_f32 row1 row3
  let mid0 := bf02.1
  let mid2 := bf02.2
  let mid1 := bf13.1
  let mid3 := butterfly4_twiddle_avx_f32 bf13.2 inverse
  let out01 := column_butterfly2_avx_f32 mid0 mid1
  let out23 := column_butterfly2_avx_f32 mid2 mid3
  (out01.1, out23.1, out01.2, out23.2)

/-- `column_butterfly8_avx_f32!`. -/
noncomputable def column_butterfly8_avx_f32
    (row0 row1 row2 row3 row4 row5 row6 row7 twiddles : M256) (inverse : Bool) :
    M256 × M256 × M256 × M256 × M256 × M256 × M256 × M256 :=
  let bfe := column_butterfly4_avx_f32 row0 row2 row4 row6 inverse
  let bfo := column_butterfly4_avx_f32 row1 row3 row5 row7 inverse
  let mid0 := bfe.1
  let mid2 := bfe.2.1
  let mid4 := bfe.2.2.1
  let mid6 := bfe.2.2.2
  let mid1 := bfo.1
  let mid3 := bfo.2.1
  let mid5 := bfo.2.2.1
  let mid7 := bfo.2.2.2
  let mid3_twiddled := complex_multiply_f32 twiddles mid3
  let mid5_twiddled := butterfly4_twiddle_avx_f32 mid5 inverse
  let mid7_twiddled_neg := complex_conj_multiply_f32 twiddles mid7
  let f01 := column_butterfly2_avx_f32 mid0 mid1
  let f23 := column_butterfly2_avx_f32 mid2 mid3_twiddled
  let f45 := column_butterfly2_avx_f32 mid4 mid5_twiddled
  let f67 := column_butterfly2_negaterow1_avx_f32 mid6 mid7_twiddled_neg
  (f01.1, f23.1, f45.1, f67.1, f01.2, f23.2, f45.2, f67.2)

/-- `transpose_4x4_f32!`. -/
def transpose_4x4_f32 (col0 col1 col2 col3 : M256) : M256 × M256 × M256 × M256 :=
  let unpacked_0 := mm256_unpacklo_ps col0 col1
  let unpacked_1 := mm256_unpackhi_ps col0 col1
  let unpacked_2 := mm256_unpacklo_ps col2 col3
  let unpacked_3 := mm256_unpackhi_ps col2 col3
  let swapped_0 := mm256_permute_0xD8 unpacked_0
  let swapped_1 := mm256_permute_0xD8 unpacked_1
  let swapped_2 := mm256_permute_0xD8 unpacked_2
  let swapped_3 := mm256_permute_0xD8 unpacked_3
  (mm256_permute2f128_0x20 swapped_0 swapped_2,
   mm256_permute2f128_0x20 swapped_1 swapped_3,
   mm256_permute2f128_0x31 swapped_0 swapped_2,
   mm256_permute2f128_0x31 swapped_1 swapped_3)

/-- `butterfly16_avx_f32!`. -/
noncomputable def butterfly16_avx_f32 (row0 row1 row2 row3 : M256) (twiddles : Fin 3 → M256)
    (inverse : Bool) : M256 × M256 × M256 × M256 :=
  let bf := column_butterfly4_avx_f32 row0 row1 row2 row3 inverse
  let mid1_twiddled := complex_multiply_f32 bf.2.1 (twiddles 0)
  let mid2_twiddled := complex_multiply_f32 bf.2.2.1 (twiddles 1)
  let mid3_twiddled := complex_multiply_f32 bf.2.2.2 (twiddles 2)
  let tr := transpose_4x4_f32 bf.1 mid1_twiddled mid2_twiddled mid3_twiddled
  column_butterfly4_avx_f32 tr.1 tr.2.1 tr.2.2.1 tr.2.2.2 inverse

/-! ## `SplitRadixAvx` (split_radix.rs lines 435–601) -/

structure SplitRadixAvx where
  twiddles : ℕ → M256
  fft_half : InnerFft
  fft_quarter : InnerFft
  len : ℕ
  inverse : Bool

/-- `SplitRadixAvx::new_with_avx` (lines 457–492): the two `assert_eq!` contract
checks of the scalar constructor, the additional `assert_eq!(len % 16, 0)`, and the
packed twiddle table whose vector `i` is the `_mm256_loadu_ps` of the chunk
`[W_{4i}, W_{4i+1}, W_{4i+2}, W_{4i+3}]`. -/
noncomputable def SplitRadixAvx.new_with_avx (fft_half fft_quarter : InnerFft) :
    Except Diag SplitRadixAvx :=
  if fft_half.inverse ≠ fft_quarter.inverse then
    .error (.mismatchedInverse fft_half.inverse fft_quarter.inverse)
  else if fft_half.len ≠ fft_quarter.len * 2 then
    .error (.mismatchedLength fft_half.len fft_quarter.len)
  else if fft_quarter.len * 4 % 16 ≠ 0 then
    .error (.lengthNotMultipleOf16 (fft_quarter.len * 4))
  else
    .ok { twiddles := fun i => load_avx_f32
            (fun j => single_twiddle (i * 4 + j) (fft_quarter.len * 4) fft_quarter.inverse) 0
          fft_half := fft_half
          fft_quarter := fft_quarter
          len := fft_quarter.len * 4
          inverse := fft_quarter.inverse }

/-- `SplitRadixAvx::new` (lines 446–455): runtime check for the `avx` and `fma`
CPU features; `Err(())` when either is missing, otherwise `new_with_avx`.  The outer
`Except Unit` is the recoverable `Result<Self, ()>`; the inner `Except Diag` carries
the aborts that `new_with_avx` itself can raise. -/
noncomputable def SplitRadixAvx.new (has_avx has_fma : Bool)
    (fft_half fft_quarter : InnerFft) : Except Unit (Except Diag SplitRadixAvx) :=
  if has_avx && has_fma then .ok (SplitRadixAvx.new_with_avx fft_half fft_quarter)
  else .error ()

/-- One iteration of the vectorized decimation loop of
`SplitRadixAvx::perform_fft_f32` (lines 503–521), in source order.  The `quarter3`
vector is stored at scratch offset `i*4 + 1` (the rotation is completed after the
loop). -/
def decimBodyAvx (st : SRState) (i : ℕ) : SRState :=
  let chunk0 := load_avx_f32 st.buf (i * 16)
  let chunk1 := load_avx_f32 st.buf (i * 16 + 4)
  let ev0 := split_evens_f32 chunk0 chunk1
  let chunk2 := load_avx_f32 st.buf (i * 16 + 8)
  let chunk3 := load_avx_f32 st.buf (i * 16 + 12)
  let ev1 := split_evens_f32 chunk2 chunk3
  let q := split_evens_f32 ev0.2 ev1.2
  let b := store_avx_f32 st.buf (i * 8) ev0.1
  let b := store_avx_f32 b (i * 8 + 4) ev1.1
  let s1 := store_avx_f32 st.sq1 (i * 4) q.1
  let s3 := store_avx_f32 st.sq3 (i * 4 + 1) q.2
  ⟨b, s1, s3⟩

/-- One iteration of the vectorized recombination loop (lines 536–559). -/
noncomputable def recombBodyAvx (inverse : Bool) (twv : ℕ → M256)
    (half_len quarter_len three_quarter_len : ℕ) (st : SRState) (i : ℕ) : SRState :=
  let inner_even0_entry := load_avx_f32 st.buf (i * 4)
  let inner_even1_entry := load_avx_f32 st.buf (quarter_len + i * 4)
  let inner_quarter1_entry := load_avx_f32 st.sq1 (i * 4)
  let inner_quarter3_entry := load_avx_f32 st.sq3 (i * 4)
  let twiddle := twv i
  let twiddled_quarter1 := complex_multiply_f32 twiddle inner_quarter1_entry
  let twiddled_quarter3 := complex_conj_multiply_f32 twiddle inner_quarter3_entry
  let qsd := column_butterfly2_avx_f32 twiddled_quarter1 twiddled_quarter3
  let out0h := column_butterfly2_avx_f32 inner_even0_entry qsd.1
  let quarter_diff_rotated := butterfly4_twiddle_avx_f32 qsd.2 inverse
  let out13 := column_butterfly2_avx_f32 inner_even1_entry quarter_diff_rotated
  let b := store_avx_f32 st.buf (i * 4) out0h.1
  let b := store_avx_f32 b (i * 4 + quarter_len) out13.1
  let b := store_avx_f32 b (i * 4 + half_len) out0h.2
  let b := store_avx_f32 b (i * 4 + three_quarter_len) out13.2
  ⟨b, st.sq1, st.sq3⟩

/-- `SplitRadixAvx::perform_fft_f32` (lines 494–560): the vectorized decimation loop,
the rotation patch `scratch_quarter3[0] = scratch_quarter3[quarter_len]` followed by
slicing `scratch_quarter3` to `quarter_len` entries, the three inner FFTs, and the
vectorized recombination loop. -/
noncomputable def SplitRadixAvx.perform_fft_f32 (self : SplitRadixAvx) (st : SRState) :
    SRState :=
  let half_len := self.len / 2
  let quarter_len := self.len / 4
  let three_quarter_len := half_len + quarter_len
  let sixteenth_len := self.len / 16
  let std := iterFor decimBodyAvx 0 sixteenth_len st
  let std2 : SRState := ⟨std.buf, std.sq1, upd std.sq3 0 (std.sq3 quarter_len)⟩
  let st1 := innerStage self.fft_half self.fft_quarter half_len quarter_len std2
  iterFor (recombBodyAvx self.inverse self.twiddles half_len quarter_len three_quarter_len)
    0 sixteenth_len st1

/-- `SplitRadixAvx::get_required_scratch_len` (lines 585–587). -/
def SplitRadixAvx.get_required_scratch_len (self : SplitRadixAvx) : ℕ :=
  self.len / 2 + 1

/-- `FftInline::process_inline` for `SplitRadixAvx<f32>` (lines 578–584). -/
noncomputable def SplitRadixAvx.process_inline (self : SplitRadixAvx)
    (buffer_len scratch_len : ℕ) (st : SRState) : Except Diag SRState := do
  let _ ← verify_length_inline buffer_len self.len
  let _ ← verify_length_minimum scratch_len self.get_required_scratch_len
  .ok (self.perform_fft_f32 st)

/-- `FFT::process` for `SplitRadixAvx` (lines 562–565): `unimplemented!()`. -/
def SplitRadixAvx.process (_self : SplitRadixAvx) (_input _output : ℕ → ℂ) :
    Except Diag ((ℕ → ℂ) × (ℕ → ℂ)) :=
  .error .unimplemented

/-- `FFT::process_multi` for `SplitRadixAvx` (lines 566–568): `unimplemented!()`. -/
def SplitRadixAvx.process_multi (_self : SplitRadixAvx) (_input _output : ℕ → ℂ) :
    Except Diag ((ℕ → ℂ) × (ℕ → ℂ)) :=
  .error .unimplemented

/-! ## The fixed-size AVX kernels (split_radix.rs lines 604–1117) -/

/-- The packed butterfly-8 twiddle vector
`_mm256_set_ps(w.im, w.re, w.im, w.re, w.im, w.re, w.im, w.re)` with
`w = single_twiddle(1, 8, inverse)` (`_mm256_set_ps` lists lanes from 7 down to 0, so
lane `2t` holds `w.re` and lane `2t+1` holds `w.im`). -/
noncomputable def pack_butterfly8_twiddle (inverse : Bool) : M256 :=
  fun j => if j.val % 2 = 0 then (single_twiddle 1 8 inverse).re
    else (single_twiddle 1 8 inverse).im

structure MixedRadixAvx4x2 where
  twiddles : M256
  inverse : Bool

/-- The twiddle array of `MixedRadixAvx4x2::new_with_avx` (lines 623–628). -/
noncomputable def MixedRadixAvx4x2.twiddle_array (inverse : Bool) : List ℂ :=
  [⟨1, 0⟩,
   single_twiddle 1 8 inverse,
   single_twiddle 2 8 inverse,
   single_twiddle 3 8 inverse]

/-- `MixedRadixAvx4x2::new_with_avx` (lines 621–634). -/
noncomputable def MixedRadixAvx4x2.new_with_avx (inverse : Bool) : MixedRadixAvx4x2 :=
  { twiddles := load_avx_f32 (fun j => (MixedRadixAvx4x2.twiddle_array inverse).getD j 0) 0
    inverse := inverse }

/-- `MixedRadixAvx4x2::new` (lines 610–620). -/
noncomputable def MixedRadixAvx4x2.new (has_avx has_fma : Bool) (inverse : Bool) :
    Except Unit MixedRadixAvx4x2 :=
  if has_avx && has_fma then .ok (MixedRadixAvx4x2.new_with_avx inverse) else .error ()

def MixedRadixAvx4x2.len (_self : MixedRadixAvx4x2) : ℕ := 8

/-- `MixedRadixAvx4x2::process_butterfly8_f32` (lines 638–648). -/
noncomputable def MixedRadixAvx4x2.process_butterfly8_f32 (self : MixedRadixAvx4x2)
    (buffer : ℕ → ℂ) : ℕ → ℂ :=
  let row0 := load_avx_f32 buffer 0
  let row1 := load_avx_f32 buffer 4
  let out := butterfly8_avx_f32 row0 row1 self.twiddles self.inverse
  store_avx_f32 (store_avx_f32 buffer 0 out.1) 4 out.2

def MixedRadixAvx4x2.get_required_scratch_len (_self : MixedRadixAvx4x2) : ℕ := 0

/-- `FftInline::process_inline` for `MixedRadixAvx4x2<f32>` (lines 658–666): only the
buffer length is verified; the scratch is ignored entirely. -/
noncomputable def MixedRadixAvx4x2.process_inline (self : MixedRadixAvx4x2)
    (buffer_len : ℕ) (buffer scratch : ℕ → ℂ) : Except Diag ((ℕ → ℂ) × (ℕ → ℂ)) := do
  let _ ← verify_length_inline buffer_len self.len
  .ok (self.process_butterfly8_f32 buffer, scratch)

structure MixedRadixAvx4x4 where
  twiddles : Fin 3 → M256
  inverse : Bool

/-- The twiddle array of `MixedRadixAvx4x4::new_with_avx` (lines 699–712). -/
noncomputable def MixedRadixAvx4x4.twiddle_array (inverse : Bool) : List ℂ :=
  [⟨1, 0⟩,
   single_twiddle 1 16 inverse,
   single_twiddle 2 16 inverse,
   single_twiddle 3 16 inverse,
   ⟨1, 0⟩,
   single_twiddle 2 16 inverse,
   single_twiddle 4 16 inverse,
   single_twiddle 6 16 inverse,
   ⟨1, 0⟩,
   single_twiddle 3 16 inverse,
   single_twiddle 6 16 inverse,
   single_twiddle 9 16 inverse]

/-- `MixedRadixAvx4x4::new_with_avx` (lines 697–723): vector `v` is the load at
offset `4v` of the twiddle array. -/
noncomputable def MixedRadixAvx4x4.new_with_avx (inverse : Bool) : MixedRadixAvx4x4 :=
  { twiddles := fun v => load_avx_f32
      (fun j => (MixedRadixAvx4x4.twiddle_array inverse).getD j 0) (v.val * 4)
    inverse := inverse }

/-- `MixedRadixAvx4x4::new` (lines 686–696). -/
noncomputable def MixedRadixAvx4x4.new (has_avx has_fma : Bool) (inverse : Bool) :
    Except Unit MixedRadixAvx4x4 :=
  if has_avx && has_fma then .ok (MixedRadixAvx4x4.new_with_avx inverse) else .error ()

def MixedRadixAvx4x4.len (_self : MixedRadixAvx4x4) : ℕ := 16

/-- `MixedRadixAvx4x4::process_butterfly16_f32` (lines 726–739). -/
noncomputable def MixedRadixAvx4x4.process_butterfly16_f32 (self : MixedRadixAvx4x4)
    (buffer : ℕ → ℂ) : ℕ → ℂ :=
  let input0 := load_avx_f32 buffer 0
  let input1 := load_avx_f32 buffer (1 * 4)
  let input2 := load_avx_f32 buffer (2 * 4)
  let input3 := load_avx_f32 buffer (3 * 4)
  let out := butterfly16_avx_f32 input0 input1 input2 input3 self.twiddles self.inverse
  store_avx_f32 (store_avx_f32 (store_avx_f32 (store_avx_f32 buffer 0 out.1)
    (1 * 4) out.2.1) (2 * 4) out.2.2.1) (3 * 4) out.2.2.2

def MixedRadixAvx4x4.get_required_scratch_len (_self : MixedRadixAvx4x4) : ℕ := 0

/-- `FftInline::process_inline` for `MixedRadixAvx4x4<f32>` (lines 749–757). -/
noncomputable def MixedRadixAvx4x4.process_inline (self : MixedRadixAvx4x4)
    (buffer_len : ℕ) (buffer scratch : ℕ → ℂ) : Except Diag ((ℕ → ℂ) × (ℕ → ℂ)) := do
  let _ ← verify_length_inline buffer_len self.len
  .ok (self.process_butterfly16_f32 buffer, scratch)

structure MixedRadixAvx4x8 where
  twiddles : Fin 6 → M256
  twiddles_butterfly8 : M256
  inverse : Bool

/-- The twiddle array of `MixedRadixAvx4x8::new_with_avx` (lines 791–816). -/
noncomputable def MixedRadixAvx4x8.twiddle_array (inverse : Bool) : List ℂ :=
  [⟨1, 0⟩,
   single_twiddle 1 32 inverse,
   single_twiddle 2 32 inverse,
   single_twiddle 3 32 inverse,
   single_twiddle 4 32 inverse,
   single_twiddle 5 32 inverse,
   single_twiddle 6 32 inverse,
   single_twiddle 7 32 inverse,
   ⟨1, 0⟩,
   single_twiddle 2 32 inverse,
   single_twiddle 4 32 inverse,
   single_twiddle 6 32 inverse,
   single_twiddle 8 32 inverse,
   single_twiddle 10 32 inverse,
   single_twiddle 12 32 inverse,
   single_twiddle 14 32 inverse,
   ⟨1, 0⟩,
   single_twiddle 3 32 inverse,
   single_twiddle 6 32 inverse,
   single_twiddle 9 32 inverse,
   single_twiddle 12 32 inverse,
   single_twiddle 15 32 inverse,
   single_twiddle 18 32 inverse,
   single_twiddle 21 32 inverse]

/-- `MixedRadixAvx4x8::new_with_avx` (lines 789–835). -/
noncomputable def MixedRadixAvx4x8.new_with_avx (inverse : Bool) : MixedRadixAvx4x8 :=
  { twiddles := fun v => load_avx_f32
      (fun j => (MixedRadixAvx4x8.twiddle_array inverse).getD j 0) (v.val * 4)
    twiddles_butterfly8 := pack_butterfly8_twiddle inverse
    inverse := inverse }

/-- `MixedRadixAvx4x8::new` (lines 778–788). -/
noncomputable def MixedRadixAvx4x8.new (has_avx has_fma : Bool) (inverse : Bool) :
    Except Unit MixedRadixAvx4x8 :=
  if has_avx && has_fma then .ok (MixedRadixAvx4x8.new_with_avx inverse) else .error ()

def MixedRadixAvx4x8.len (_self : MixedRadixAvx4x8) : ℕ := 32

/-- `MixedRadixAvx4x8::process_butterfly32_f32` (lines 838–876). -/
noncomputable def MixedRadixAvx4x8.process_butterfly32_f32 (self : MixedRadixAvx4x8)
    (buffer : ℕ → ℂ) : ℕ → ℂ :=
  let input0 := load_avx_f32 buffer 0
  let input1 := load_avx_f32 buffer (1 * 4)
  let input2 := load_avx_f32 buffer (2 * 4)
  let input3 := load_avx_f32 buffer (3 * 4)
  let input4 := load_avx_f32 buffer (4 * 4)
  let input5 := load_avx_f32 buffer (5 * 4)
  let input6 := load_avx_f32 buffer (6 * 4)
  let input7 := load_avx_f32 buffer (7 * 4)
  let bfe := column_butterfly4_avx_f32 input0 input2 input4 input6 self.inverse
  let bfo := column_butterfly4_avx_f32 input1 input3 input5 input7 self.inverse
  let mid0 := bfe.1
  let mid2 := bfe.2.1
  let mid4 := bfe.2.2.1
  let mid6 := bfe.2.2.2
  let mid1 := bfo.1
  let mid3 := bfo.2.1
  let mid5 := bfo.2.2.1
  let mid7 := bfo.2.2.2
  let mid2_twiddled := complex_multiply_f32 mid2 (self.twiddles 0)
  let mid3_twiddled := complex_multiply_f32 mid3 (self.twiddles 1)
  let mid4_twiddled := complex_multiply_f32 mid4 (self.twiddles 2)
  let mid5_twiddled := complex_multiply_f32 mid5 (self.twiddles 3)
  let mid6_twiddled := complex_multiply_f32 mid6 (self.twiddles 4)
  let mid7_twiddled := complex_multiply_f32 mid7 (self.twiddles 5)
  let tr0 := transpose_4x4_f32 mid0 mid2_twiddled mid4_twiddled mid6_twiddled
  let tr1 := transpose_4x4_f32 mid1 mid3_twiddled mid5_twiddled mid7_twiddled
  let out := column_butterfly8_avx_f32 tr0.1 tr0.2.1 tr0.2.2.1 tr0.2.2.2
    tr1.1 tr1.2.1 tr1.2.2.1 tr1.2.2.2 self.twiddles_butterfly8 self.inverse
  store_avx_f32 (store_avx_f32 (store_avx_f32 (store_avx_f32
    (store_avx_f32 (store_avx_f32 (store_avx_f32 (store_avx_f32 buffer
      0 out.1) (1 * 4) out.2.1) (2 * 4) out.2.2.1) (3 * 4) out.2.2.2.1)
      (4 * 4) out.2.2.2.2.1) (5 * 4) out.2.2.2.2.2.1) (6 * 4) out.2.2.2.2.2.2.1)
      (7 * 4) out.2.2.2.2.2.2.2

def MixedRadixAvx4x8.get_required_scratch_len (_self : MixedRadixAvx4x8) : ℕ := 0

/-- `FftInline::process_inline` for `MixedRadixAvx4x8<f32>` (lines 886–894). -/
noncomputable def MixedRadixAvx4x8.process_inline (self : MixedRadixAvx4x8)
    (buffer_len : ℕ) (buffer scratch : ℕ → ℂ) : Except Diag ((ℕ → ℂ) × (ℕ → ℂ)) := do
  let _ ← verify_length_inline buffer_len self.len
  .ok (self.process_butterfly32_f32 buffer, scratch)

structure MixedRadixAvx8x8 where
  twiddles : Fin 14 → M256
  twiddles_butterfly8 : M256
  inverse : Bool

/-- The twiddle array of `MixedRadixAvx8x8::new_with_avx` (lines 928–985): rows
`a = 1..7`, each row `[1, W_{a·1}, …, W_{a·7}]` of size-64 twiddles. -/
noncomputable def MixedRadixAvx8x8.twiddle_array (inverse : Bool) : List ℂ :=
  [⟨1, 0⟩,
   single_twiddle 1 64 inverse,
   single_twiddle 2 64 inverse,
   single_twiddle 3 64 inverse,
   single_twiddle 4 64 inverse,
   single_twiddle 5 64 inverse,
   single_twiddle 6 64 inverse,
   single_twiddle 7 64 inverse,
   ⟨1, 0⟩,
   single_twiddle 2 64 inverse,
   single_twiddle 4 64 inverse,
   single_twiddle 6 64 inverse,
   single_twiddle 8 64 inverse,
   single_twiddle 10 64 inverse,
   single_twiddle 12 64 inverse,
   single_twiddle 14 64 inverse,
   ⟨1, 0⟩,
   single_twiddle 3 64 inverse,
   single_twiddle 6 64 inverse,
   single_twiddle 9 64 inverse,
   single_twiddle 12 64 inverse,
   single_twiddle 15 64 inverse,
   single_twiddle 18 64 inverse,
   single_twiddle 21 64 inverse,
   ⟨1, 0⟩,
   single_twiddle 4 64 inverse,
   single_twiddle 8 64 inverse,
   single_twiddle 12 64 inverse,
   single_twiddle 16 64 inverse,
   single_twiddle 20 64 inverse,
   single_twiddle 24 64 inverse,
   single_twiddle 28 64 inverse,
   ⟨1, 0⟩,
   single_twiddle 5 64 inverse,
   single_twiddle 10 64 inverse,
   single_twiddle 15 64 inverse,
   single_twiddle 20 64 inverse,
   single_twiddle 25 64 inverse,
   single_twiddle 30 64 inverse,
   single_twiddle 35 64 inverse,
   ⟨1, 0⟩,
   single_twiddle 6 64 inverse,
   single_twiddle 12 64 inverse,
   single_twiddle 18 64 inverse,
   single_twiddle 24 64 inverse,
   single_twiddle 30 64 inverse,
   single_twiddle 36 64 inverse,
   single_twiddle 42 64 inverse,
   ⟨1, 0⟩,
   single_twiddle 7 64 inverse,
   single_twiddle 14 64 inverse,
   single_twiddle 21 64 inverse,
   single_twiddle 28 64 inverse,
   single_twiddle 35 64 inverse,
   single_twiddle 42 64 inverse,
   single_twiddle 49 64 inverse]

/-- `MixedRadixAvx8x8::new_with_avx` (lines 926–1011). -/
noncomputable def MixedRadixAvx8x8.new_with_avx (inverse : Bool) : MixedRadixAvx8x8 :=
  { twiddles := fun v => load_avx_f32
      (fun j => (MixedRadixAvx8x8.twiddle_array inverse).getD j 0) (v.val * 4)
    twiddles_butterfly8 := pack_butterfly8_twiddle inverse
    inverse := inverse }

/-- `MixedRadixAvx8x8::new` (lines 915–925). -/
noncomputable def MixedRadixAvx8x8.new (has_avx has_fma : Bool) (inverse : Bool) :
    Except Unit MixedRadixAvx8x8 :=
  if has_avx && has_fma then .ok (MixedRadixAvx8x8.new_with_avx inverse) else .error ()

def MixedRadixAvx8x8.len (_self : MixedRadixAvx8x8) : ℕ := 64

/-- `MixedRadixAvx8x8::process_butterfly64_f32` (lines 1015–1087), in source order:
even-indexed rows first (column butterfly-8, twiddles, two 4×4 transposes), then the
odd-indexed rows, then the final column butterfly-8s and stores. -/
noncomputable def MixedRadixAvx8x8.process_butterfly64_f32 (self : MixedRadixAvx8x8)
    (buffer : ℕ → ℂ) : ℕ → ℂ :=
  let input0 := load_avx_f32 buffer 0
  let input2 := load_avx_f32 buffer (2 * 4)
  let input4 := load_avx_f32 buffer (4 * 4)
  let input6 := load_avx_f32 buffer (6 * 4)
  let input8 := load_avx_f32 buffer (8 * 4)
  let input10 := load_avx_f32 buffer (10 * 4)
  let input12 := load_avx_f32 buffer (12 * 4)
  let input14 := load_avx_f32 buffer (14 * 4)
  let bfe := column_butterfly8_avx_f32 input0 input2 input4 input6 input8 input10
    input12 input14 self.twiddles_butterfly8 self.inverse
  let mid0 := bfe.1
  let mid2_twiddled := complex_multiply_f32 bfe.2.1 (self.twiddles 0)
  let mid4_twiddled := complex_multiply_f32 bfe.2.2.1 (self.twiddles 2)
  let mid6_twiddled := complex_multiply_f32 bfe.2.2.2.1 (self.twiddles 4)
  let mid8_twiddled := complex_multiply_f32 bfe.2.2.2.2.1 (self.twiddles 6)
  let mid10_twiddled := complex_multiply_f32 bfe.2.2.2.2.2.1 (self.twiddles 8)
  let mid12_twiddled := complex_multiply_f32 bfe.2.2.2.2.2.2.1 (self.twiddles 10)
  let mid14_twiddled := complex_multiply_f32 bfe.2.2.2.2.2.2.2 (self.twiddles 12)
  let tre0 := transpose_4x4_f32 mid0 mid2_twiddled mid4_twiddled mid6_twiddled
  let tre1 := transpose_4x4_f32 mid8_twiddled mid10_twiddled mid12_twiddled mid14_twiddled
  let input1 := load_avx_f32 buffer (1 * 4)
  let input3 := load_avx_f32 buffer (3 * 4)
  let input5 := load_avx_f32 buffer (5 * 4)
  let input7 := load_avx_f32 buffer (7 * 4)
  let input9 := load_avx_f32 buffer (9 * 4)
  let input11 := load_avx_f32 buffer (11 * 4)
  let input13 := load_avx_f32 buffer (13 * 4)
  let input15 := load_avx_f32 buffer (15 * 4)
  let bfo := column_butterfly8_avx_f32 input1 input3 input5 input7 input9 input11
    input13 input15 self.twiddles_butterfly8 self.inverse
  let mid1 := bfo.1
  let mid3_twiddled := complex_multiply_f32 bfo.2.1 (self.twiddles 1)
  let mid5_twiddled := complex_multiply_f32 bfo.2.2.1 (self.twiddles 3)
  let mid7_twiddled := complex_multiply_f32 bfo.2.2.2.1 (self.twiddles 5)
  let mid9_twiddled := complex_multiply_f32 bfo.2.2.2.2.1 (self.twiddles 7)
  let mid11_twiddled := complex_multiply_f32 bfo.2.2.2.2.2.1 (self.twiddles 9)
  let mid13_twiddled := complex_multiply_f32 bfo.2.2.2.2.2.2.1 (self.twiddles 11)
  let mid15_twiddled := complex_multiply_f32 bfo.2.2.2.2.2.2.2 (self.twiddles 13)
  let tro0 := transpose_4x4_f32 mid1 mid3_twiddled mid5_twiddled mid7_twiddled
  let tro1 := transpose_4x4_f32 mid9_twiddled mid11_twiddled mid13_twiddled mid15_twiddled
  let oute := column_butterfly8_avx_f32 tre0.1 tre0.2.1 tre0.2.2.1 tre0.2.2.2
    tro0.1 tro0.2.1 tro0.2.2.1 tro0.2.2.2 self.twiddles_butterfly8 self.inverse
  let b := store_avx_f32 buffer 0 oute.1
  let b := store_avx_f32 b (2 * 4) oute.2.1
  let b := store_avx_f32 b (4 * 4) oute.2.2.1
  let b := store_avx_f32 b (6 * 4) oute.2.2.2.1
  let b := store_avx_f32 b (8 * 4) oute.2.2.2.2.1
  let b := store_avx_f32 b (10 * 4) oute.2.2.2.2.2.1
  let b := store_avx_f32 b (12 * 4) oute.2.2.2.2.2.2.1
  let b := store_avx_f32 b (14 * 4) oute.2.2.2.2.2.2.2
  let outo := column_butterfly8_avx_f32 tre1.1 tre1.2.1 tre1.2.2.1 tre1.2.2.2
    tro1.1 tro1.2.1 tro1.2.2.1 tro1.2.2.2 self.twiddles_butterfly8 self.inverse
  let b := store_avx_f32 b (1 * 4) outo.1
  let b := store_avx_f32 b (3 * 4) outo.2.1
  let b := store_avx_f32 b (5 * 4) outo.2.2.1
  let b := store_avx_f32 b (7 * 4) outo.2.2.2.1
  let b := store_avx_f32 b (9 * 4) outo.2.2.2.2.1
  let b := store_avx_f32 b (11 * 4) outo.2.2.2.2.2.1
  let b := store_avx_f32 b (13 * 4) outo.2.2.2.2.2.2.1
  store_avx_f32 b (15 * 4) outo.2.2.2.2.2.2.2

def MixedRadixAvx8x8.get_required_scratch_len (_self : MixedRadixAvx8x8) : ℕ := 0

/-- `FftInline::process_inline` for `MixedRadixAvx8x8<f32>` (lines 1097–1105). -/
noncomputable def MixedRadixAvx8x8.process_inline (self : MixedRadixAvx8x8)
    (buffer_len : ℕ) (buffer scratch : ℕ → ℂ) : Except Diag ((ℕ → ℂ) × (ℕ → ℂ)) := do
  let _ ← verify_length_inline buffer_len self.len
  .ok (self.process_butterfly64_f32 buffer, scratch)

/-! ## The `boilerplate_fft_commondata!` glue (avx/mod.rs) -/

/-- The constructor generated by `boilerplate_fft_commondata!` (avx/mod.rs lines
24–34): runtime feature check, then delegate to the algorithm's `new_with_avx`
(whose body lives outside the provided sources, so it is left abstract here). -/
def boilerplate_new {H : Type} (has_avx has_fma : Bool) (new_with_avx : H) :
    Except Unit H :=
  if has_avx && has_fma then .ok new_with_avx else .error ()

/-- `Fft::process_with_scratch` generated by `boilerplate_fft_commondata!` (avx/mod.rs
lines 67–77): the three length asserts, the scratch cap, then
`perform_fft_out_of_place`.  The perform step is abstract here — its pieces
(`perform_column_butterflies`, the inner FFT, `transpose`) live outside the provided
sources. -/
def process_with_scratch {β : Type} (len oop_scratch_len : ℕ) (perform : β)
    (input_len output_len scratch_len : ℕ) : Except Diag β :=
  if input_len ≠ len then .error (.wrongBufferLength len input_len)
  else if output_len ≠ len then .error (.wrongBufferLength len output_len)
  else if scratch_len < oop_scratch_len then
    .error (.scratchTooSmall oop_scratch_len scratch_len)
  else .ok perform

/-! ## Loads and stores at the complex level -/

theorem cvec_load_avx (f : ℕ → ℂ) (idx : ℕ) (t : Fin 4) :
    cvec (load_avx_f32 f idx) t = f (idx + t.val) := by
  fin_cases t <;> rfl

theorem store_avx_lt (f : ℕ → ℂ) (idx : ℕ) (v : M256) {n : ℕ} (h : n < idx) :
    store_avx_f32 f idx v n = f n := by
  unfold store_avx_f32
  rw [dif_neg]
  omega

theorem store_avx_ge (f : ℕ → ℂ) (idx : ℕ) (v : M256) {n : ℕ} (h : idx + 4 ≤ n) :
    store_avx_f32 f idx v n = f n := by
  unfold store_avx_f32
  rw [dif_neg]
  omega

theorem store_avx_in (f : ℕ → ℂ) (idx : ℕ) (v : M256) {n : ℕ}
    (h1 : idx ≤ n) (h2 : n < idx + 4) :
    store_avx_f32 f idx v n = cvec v ⟨n - idx, by omega⟩ := by
  unfold store_avx_f32 cvec
  rw [dif_pos ⟨h1, h2⟩]

/-! ## Claims C5, C6, C7 -/

/-- **C5.**  The scalar split-radix reports a required scratch length of exactly
`N/2` complex samples, and the SIMD split-radix of exactly `N/2 + 1`. -/
theorem split_radix_scratch_lens :
    (∀ h : SplitRadix, h.get_required_scratch_len = h.len / 2) ∧
    (∀ a : SplitRadixAvx, a.get_required_scratch_len = a.len / 2 + 1) :=
  ⟨fun _ => rfl, fun _ => rfl⟩

/-- **C6.**  Construction of a split-radix handle (scalar or AVX) aborts iff the
inner transforms are inconsistent — `fft_half.len ≠ 2·fft_quarter.len` or mismatched
directions — or, for the AVX variant only, `4·fft_quarter.len` is not divisible by
16; a successfully constructed handle satisfies `len = 4·fft_quarter.len =
2·fft_half.len` and shares the inner transforms' direction. -/
theorem split_radix_new_validation (fft_half fft_quarter : InnerFft) :
    ((SplitRadix.new fft_half fft_quarter).isOk = true ↔
      (fft_half.inverse = fft_quarter.inverse ∧ fft_half.len = fft_quarter.len * 2)) ∧
    ((SplitRadixAvx.new_with_avx fft_half fft_quarter).isOk = true ↔
      (fft_half.inverse = fft_quarter.inverse ∧ fft_half.len = fft_quarter.len * 2 ∧
        fft_quarter.len * 4 % 16 = 0)) ∧
    (∀ h, SplitRadix.new fft_half fft_quarter = .ok h →
      h.len = 4 * fft_quarter.len ∧ h.len = 2 * fft_half.len ∧
      h.inverse = fft_quarter.inverse ∧ h.inverse = fft_half.inverse) ∧
    (∀ h, SplitRadixAvx.new_with_avx fft_half fft_quarter = .ok h →
      h.len = 4 * fft_quarter.len ∧ h.len = 2 * fft_half.len ∧
      h.inverse = fft_quarter.inverse ∧ h.inverse = fft_half.inverse) := by
  refine ⟨?_, ?_, ?_, ?_⟩
  · unfold SplitRadix.new
    split_ifs with h1 h2 <;> simp_all [Except.isOk, Except.toBool]
  · unfold SplitRadixAvx.new_with_avx
    split_ifs with h1 h2 h3 <;> simp_all [Except.isOk, Except.toBool]
  · intro h heq
    unfold SplitRadix.new at heq
    split_ifs at heq with h1 h2
    rw [Except.ok.injEq] at heq
    subst heq
    push_neg at h1 h2
    refine ⟨?_, ?_, rfl, ?_⟩
    · show fft_quarter.len * 4 = 4 * fft_quarter.len
      ring
    · show fft_quarter.len * 4 = 2 * fft_half.len
      omega
    · show fft_quarter.inverse = fft_half.inverse
      exact h1.symm
  · intro h heq
    unfold SplitRadixAvx.new_with_avx at heq
    split_ifs at heq with h1 h2 h3
    rw [Except.ok.injEq] at heq
    subst heq
    push_neg at h1 h2
    refine ⟨?_, ?_, rfl, ?_⟩
    · show fft_quarter.len * 4 = 4 * fft_quarter.len
      ring
    · show fft_quarter.len * 4 = 2 * fft_half.len
      omega
    · show fft_quarter.inverse = fft_half.inverse
      exact h1.symm

/-- Witness for C6: the handle actually constructed from consistent length-4 and
length-2 inner handles has length `4 · 2`. -/
theorem split_radix_new_validation_witness :
    ({ twiddles := fun i => single_twiddle i (2 * 4) false
       fft_half := innerD 4 false
       fft_quarter := innerD 2 false
       len := 2 * 4
       inverse := false } : SplitRadix).len = 4 * 2 :=
  ((split_radix_new_validation (innerD 4 false) (innerD 2 false)).2.2.1 _ rfl).1

/-- Counterexample for C7: with both CPU features present but inconsistent inner
transforms, `SplitRadixAvx::new` does not return `Ok` with a constructed handle —
`new_with_avx` aborts on its length assert (modelled as the inner `.error`). -/
theorem simd_constructor_feature_gate_cex :
    SplitRadixAvx.new true true (innerD 3 false) (innerD 2 false)
      = .ok (.error (.mismatchedLength 3 2)) := by
  rfl

/-- **C7 (amended).**  Every SIMD transform constructor returns a recoverable `Err`
iff at least one of the AVX and FMA CPU features is absent at runtime.  When both are
present, the fixed-size kernel constructors return `Ok` with the constructed handle,
and `SplitRadixAvx::new` / the macro-generated constructors delegate to their
`new_with_avx` (which can still abort on its own contract asserts). -/
theorem simd_constructor_feature_gate :
    (∀ (a f : Bool) (half quarter : InnerFft),
      (SplitRadixAvx.new a f half quarter).isOk = true ↔ (a = true ∧ f = true)) ∧
    (∀ a f inv : Bool,
      (MixedRadixAvx4x2.new a f inv).isOk = true ↔ (a = true ∧ f = true)) ∧
    (∀ a f inv : Bool,
      (MixedRadixAvx4x4.new a f inv).isOk = true ↔ (a = true ∧ f = true)) ∧
    (∀ a f inv : Bool,
      (MixedRadixAvx4x8.new a f inv).isOk = true ↔ (a = true ∧ f = true)) ∧
    (∀ a f inv : Bool,
      (MixedRadixAvx8x8.new a f inv).isOk = true ↔ (a = true ∧ f = true)) ∧
    (∀ (H : Type) (a f : Bool) (mk : H),
      (boilerplate_new a f mk).isOk = true ↔ (a = true ∧ f = true)) ∧
    (∀ inv : Bool,
      MixedRadixAvx4x2.new true true inv = .ok (MixedRadixAvx4x2.new_with_avx inv) ∧
      MixedRadixAvx4x4.new true true inv = .ok (MixedRadixAvx4x4.new_with_avx inv) ∧
      MixedRadixAvx4x8.new true true inv = .ok (MixedRadixAvx4x8.new_with_avx inv) ∧
      MixedRadixAvx8x8.new true true inv = .ok (MixedRadixAvx8x8.new_with_avx inv)) ∧
    (∀ half quarter : InnerFft,
      SplitRadixAvx.new true true half quarter
        = .ok (SplitRadixAvx.new_with_avx half quarter)) := by
  refine ⟨?_, ?_, ?_, ?_, ?_, ?_, ?_, ?_⟩
  · intro a f half quarter
    cases a <;> cases f <;> simp [SplitRadixAvx.new, Except.isOk, Except.toBool]
  · intro a f inv
    cases a <;> cases f <;> simp [MixedRadixAvx4x2.new, Except.isOk, Except.toBool]
  · intro a f inv
    cases a <;> cases f <;> simp [MixedRadixAvx4x4.new, Except.isOk, Except.toBool]
  · intro a f inv
    cases a <;> cases f <;> simp [MixedRadixAvx4x8.new, Except.isOk, Except.toBool]
  · intro a f inv
    cases a <;> cases f <;> simp [MixedRadixAvx8x8.new, Except.isOk, Except.toBool]
  · intro H a f mk
    cases a <;> cases f <;> simp [boilerplate_new, Except.isOk, Except.toBool]
  · intro inv
    exact ⟨rfl, rfl, rfl, rfl⟩
  · intro half quarter
    rfl

/-! ## Claims C9, C10 -/

/-- Concrete AVX split-radix handle of length 16 used by witnesses and
counterexamples: the fields `SplitRadixAvx::new_with_avx(DFT::new(8, false),
DFT::new(4, false))` constructs. -/
noncomputable def avxHandle16 : SplitRadixAvx :=
  { twiddles := fun i => load_avx_f32 (fun j => single_twiddle (i * 4 + j) 16 false) 0
    fft_half := innerD 8 false
    fft_quarter := innerD 4 false
    len := 16
    inverse := false }

/-- Counterexample for C9: `FFT::process` on a `SplitRadixAvx` handle panics as
`unimplemented!()` (modelled as the `unimplemented` diagnostic), so not every
transform object exposes a working out-of-place processing operation. -/
theorem transform_process_out_of_place_cex :
    avxHandle16.process (fun _ => 0) (fun _ => 0) = .error .unimplemented :=
  rfl

/-- **C9 (amended).**  Transform objects built on the avx/mod.rs
`boilerplate_fft_commondata!` glue expose a working
`process_with_scratch(input, output, scratch)`: for matching input/output lengths and
sufficient scratch the call runs the out-of-place transform and returns; but
`SplitRadixAvx`'s `FFT::process` and `FFT::process_multi` panic as
`unimplemented!()`. -/
theorem process_out_of_place_status :
    (∀ (β : Type) (len oop : ℕ) (perform : β) (il ol sl : ℕ),
      il = len → ol = len → oop ≤ sl →
      process_with_scratch len oop perform il ol sl = .ok perform) ∧
    (∀ (self : SplitRadixAvx) (input output : ℕ → ℂ),
      self.process input output = .error .unimplemented ∧
      self.process_multi input output = .error .unimplemented) := by
  constructor
  · intro β len oop perform il ol sl hi ho hs
    subst hi
    subst ho
    unfold process_with_scratch
    rw [if_neg (by omega), if_neg (by omega), if_neg (by omega)]
  · intro self input output
    exact ⟨rfl, rfl⟩

/-- Witness for C9: a valid out-of-place call through the boilerplate glue returns
the performed transform. -/
theorem process_out_of_place_status_witness :
    process_with_scratch 8 2 (0 : ℕ) 8 8 3 = .ok 0 :=
  process_out_of_place_status.1 ℕ 8 2 0 8 8 3 rfl rfl (by norm_num)

/-- **C10.**  Every fixed-size AVX kernel reports a required scratch length of 0, and
its `process_inline` on a buffer of the kernel's length succeeds and returns the
scratch argument entirely unchanged (the scratch is never read or written). -/
theorem fixed_kernels_scratch_frame :
    (∀ k : MixedRadixAvx4x2, k.get_required_scratch_len = 0) ∧
    (∀ k : MixedRadixAvx4x4, k.get_required_scratch_len = 0) ∧
    (∀ k : MixedRadixAvx4x8, k.get_required_scratch_len = 0) ∧
    (∀ k : MixedRadixAvx8x8, k.get_required_scratch_len = 0) ∧
    (∀ (k : MixedRadixAvx4x2) (buffer scratch : ℕ → ℂ),
      k.process_inline 8 buffer scratch = .ok (k.process_butterfly8_f32 buffer, scratch)) ∧
    (∀ (k : MixedRadixAvx4x4) (buffer scratch : ℕ → ℂ),
      k.process_inline 16 buffer scratch = .ok (k.process_butterfly16_f32 buffer, scratch)) ∧
    (∀ (k : MixedRadixAvx4x8) (buffer scratch : ℕ → ℂ),
      k.process_inline 32 buffer scratch = .ok (k.process_butterfly32_f32 buffer, scratch)) ∧
    (∀ (k : MixedRadixAvx8x8) (buffer scratch : ℕ → ℂ),
      k.process_inline 64 buffer scratch = .ok (k.process_butterfly64_f32 buffer, scratch)) :=
  ⟨fun _ => rfl, fun _ => rfl, fun _ => rfl, fun _ => rfl,
   fun _ _ _ => rfl, fun _ _ _ => rfl, fun _ _ _ => rfl, fun _ _ _ => rfl⟩

/-! ## Claim C8: the kernel twiddle tables -/

set_option maxHeartbeats 1000000 in
/-- **C8.**  For every fixed-size A×B kernel and direction, the precomputed twiddle
table is exactly the `(A−1)·B` matrix `Wₐᵦ = exp(−2πi·s·a·b/N)` for `a ∈ [1,A)`,
`b ∈ [0,B)`, with `W = 1` at `b = 0`, laid out row by row (four consecutive `b` per
packed vector, vector `v` holding entries `4v..4v+3`); and the packed butterfly-8
twiddle vector holds four copies of `exp(−2πi·s/8)` in interleaved `(re, im)`
layout. -/
theorem kernel_twiddle_tables (inverse : Bool) :
    (∀ b : ℕ, b < 4 → (MixedRadixAvx4x2.twiddle_array inverse).getD b 0
        = single_twiddle (1 * b) 8 inverse) ∧
    (∀ a b : ℕ, 1 ≤ a → a < 4 → b < 4 →
      (MixedRadixAvx4x4.twiddle_array inverse).getD ((a - 1) * 4 + b) 0
        = single_twiddle (a * b) 16 inverse) ∧
    (∀ a b : ℕ, 1 ≤ a → a < 4 → b < 8 →
      (MixedRadixAvx4x8.twiddle_array inverse).getD ((a - 1) * 8 + b) 0
        = single_twiddle (a * b) 32 inverse) ∧
    (∀ a b : ℕ, 1 ≤ a → a < 8 → b < 8 →
      (MixedRadixAvx8x8.twiddle_array inverse).getD ((a - 1) * 8 + b) 0
        = single_twiddle (a * b) 64 inverse) ∧
    (∀ t : Fin 4, cvec (MixedRadixAvx4x2.new_with_avx inverse).twiddles t
        = (MixedRadixAvx4x2.twiddle_array inverse).getD t.val 0) ∧
    (∀ (v : Fin 3) (t : Fin 4), cvec ((MixedRadixAvx4x4.new_with_avx inverse).twiddles v) t
        = (MixedRadixAvx4x4.twiddle_array inverse).getD (v.val * 4 + t.val) 0) ∧
    (∀ (v : Fin 6) (t : Fin 4), cvec ((MixedRadixAvx4x8.new_with_avx inverse).twiddles v) t
        = (MixedRadixAvx4x8.twiddle_array inverse).getD (v.val * 4 + t.val) 0) ∧
    (∀ (v : Fin 14) (t : Fin 4), cvec ((MixedRadixAvx8x8.new_with_avx inverse).twiddles v) t
        = (MixedRadixAvx8x8.twiddle_array inverse).getD (v.val * 4 + t.val) 0) ∧
    (∀ t : Fin 4, cvec (pack_butterfly8_twiddle inverse) t = single_twiddle 1 8 inverse) := by
  refine ⟨?_, ?_, ?_, ?_, ?_, ?_, ?_, ?_, ?_⟩
  · intro b hb
    interval_cases b <;>
      simp [MixedRadixAvx4x2.twiddle_array, single_twiddle_zero, Complex.ext_iff] <;>
      norm_num
  · intro a b ha ha4 hb
    interval_cases a <;> interval_cases b <;>
      simp [MixedRadixAvx4x4.twiddle_array, single_twiddle_zero, Complex.ext_iff] <;>
      norm_num
  · intro a b ha ha4 hb
    interval_cases a <;> interval_cases b <;>
      simp [MixedRadixAvx4x8.twiddle_array, single_twiddle_zero, Complex.ext_iff] <;>
      norm_num
  · intro a b ha ha8 hb
    interval_cases a <;> interval_cases b <;>
      simp [MixedRadixAvx8x8.twiddle_array, single_twiddle_zero, Complex.ext_iff] <;>
      norm_num
  · intro t
    show cvec (load_avx_f32
      (fun j => (MixedRadixAvx4x2.twiddle_array inverse).getD j 0) 0) t = _
    rw [cvec_load_avx, Nat.zero_add]
  · intro v t
    show cvec (load_avx_f32
      (fun j => (MixedRadixAvx4x4.twiddle_array inverse).getD j 0) (v.val * 4)) t = _
    rw [cvec_load_avx]
  · intro v t
    show cvec (load_avx_f32
      (fun j => (MixedRadixAvx4x8.twiddle_array inverse).getD j 0) (v.val * 4)) t = _
    rw [cvec_load_avx]
  · intro v t
    show cvec (load_avx_f32
      (fun j => (MixedRadixAvx8x8.twiddle_array inverse).getD j 0) (v.val * 4)) t = _
    rw [cvec_load_avx]
  · intro t
    fin_cases t <;> rfl

/-- Witness for C8: row `a = 2`, column `b = 3` of the 8×8 kernel's table is
`W₆ = exp(−2πi·6/64)`. -/
theorem kernel_twiddle_tables_witness :
    (MixedRadixAvx8x8.twiddle_array false).getD ((2 - 1) * 8 + 3) 0
      = single_twiddle (2 * 3) 64 false :=
  (kernel_twiddle_tables false).2.2.2.1 2 3 (by norm_num) (by norm_num) (by norm_num)

/-! ## Claim C4: call-time checks and access bounds -/

/-- **C4.**  For every call to `process_inline` on `SplitRadix` or `SplitRadixAvx`:
a buffer length other than `N`, or a scratch length below the advertised
requirement, aborts with a diagnostic carrying the observed vs. expected size;
when both preconditions hold the call runs the transform; and every buffer and
scratch index the transform touches — each access expression of the decimation
and recombination loops, including the AVX store of 4 elements at
`scratch_quarter3` base `i·4 + 1` and the read of `scratch_quarter3[N/4]` — stays
below the corresponding region size, so the advertised scratch length is
sufficient for every valid call. -/
theorem process_inline_checks_and_bounds (self : SplitRadix) (selfA : SplitRadixAvx)
    (m s : ℕ) (hm : 1 ≤ m) (hs : 1 ≤ s)
    (hlen : self.len = 4 * m) (hlenA : selfA.len = 16 * s)
    (bl sl : ℕ) (st : SRState) :
    -- scalar `process_inline` (lines 113–125)
    (bl ≠ self.len → self.process_inline bl sl st
      = .error (.wrongBufferLength self.len bl)) ∧
    (bl = self.len → sl < self.get_required_scratch_len →
      self.process_inline bl sl st
        = .error (.scratchTooSmall self.get_required_scratch_len sl)) ∧
    (bl = self.len → self.get_required_scratch_len ≤ sl →
      self.process_inline bl sl st = .ok (self.perform_fft st)) ∧
    -- AVX `process_inline` (lines 578–584)
    (bl ≠ selfA.len → selfA.process_inline bl sl st
      = .error (.wrongBufferLength selfA.len bl)) ∧
    (bl = selfA.len → sl < selfA.get_required_scratch_len →
      selfA.process_inline bl sl st
        = .error (.scratchTooSmall selfA.get_required_scratch_len sl)) ∧
    (bl = selfA.len → selfA.get_required_scratch_len ≤ sl →
      selfA.process_inline bl sl st = .ok (selfA.perform_fft_f32 st)) ∧
    -- scalar decimation accesses (lines 71–79); buffer has `4m` entries, each
    -- scratch quarter `m` (the scratch is capped to `N/2` before the split)
    (1 < 4 * m ∧ 2 < 4 * m ∧ (0 : ℕ) < m ∧ 4 * m - 1 < 4 * m) ∧
    (∀ i, 1 ≤ i → i < m →
      i * 4 - 1 < 4 * m ∧ i * 4 < 4 * m ∧ i * 4 + 1 < 4 * m ∧ i * 4 + 2 < 4 * m ∧
      i * 2 < 4 * m ∧ i * 2 + 1 < 4 * m ∧ i < m) ∧
    -- scalar recombination accesses (lines 90–108); the twiddle table has `m` entries
    (∀ i, i < m →
      i < 4 * m ∧ i + m < 4 * m ∧ i + 2 * m < 4 * m ∧ i + m * 3 < 4 * m ∧ i < m) ∧
    -- AVX decimation accesses (lines 503–525); buffer has `16s` entries,
    -- `scratch_quarter1` has `4s` entries and `scratch_quarter3` at least `4s + 1`
    (∀ i, i < s →
      i * 16 + 15 < 16 * s ∧ i * 8 + 7 < 16 * s ∧
      i * 4 + 3 < 4 * s ∧ i * 4 + 1 + 3 < 4 * s + 1) ∧
    ((s - 1) * 4 + 1 + 3 < 4 * s + 1 ∧ 4 * s < 4 * s + 1 ∧ (0 : ℕ) < 4 * s + 1) ∧
    -- AVX recombination accesses (lines 536–559); `scratch_quarter3` is sliced to
    -- `4s` entries before the inner FFTs, and the twiddle table has `s` vectors
    (∀ i, i < s →
      i * 4 + 3 < 16 * s ∧ 4 * s + i * 4 + 3 < 16 * s ∧
      i * 4 + 3 < 4 * s ∧ i < s ∧
      i * 4 + 4 * s + 3 < 16 * s ∧ i * 4 + 8 * s + 3 < 16 * s ∧
      i * 4 + 12 * s + 3 < 16 * s) := by
  refine ⟨?_, ?_, ?_, ?_, ?_, ?_, by omega, ?_, ?_, ?_, by omega, ?_⟩
  · intro h
    unfold SplitRadix.process_inline verify_length_inline
    rw [if_neg h]
    rfl
  · intro h1 h2
    unfold SplitRadix.process_inline verify_length_inline verify_length_minimum
    rw [if_pos h1, if_neg (by omega)]
    rfl
  · intro h1 h2
    unfold SplitRadix.process_inline verify_length_inline verify_length_minimum
    rw [if_pos h1, if_pos h2]
    rfl
  · intro h
    unfold SplitRadixAvx.process_inline verify_length_inline
    rw [if_neg h]
    rfl
  · intro h1 h2
    unfold SplitRadixAvx.process_inline verify_length_inline verify_length_minimum
    rw [if_pos h1, if_neg (by omega)]
    rfl
  · intro h1 h2
    unfold SplitRadixAvx.process_inline verify_length_inline verify_length_minimum
    rw [if_pos h1, if_pos h2]
    rfl
  · intro i h1 h2
    omega
  · intro i hi
    omega
  · intro i hi
    omega
  · intro i hi
    omega

/-- Witness for C4: a correctly sized call on the concrete length-8 scalar handle
succeeds. -/
theorem process_inline_checks_and_bounds_witness :
    handle8.process_inline 8 4 st0ex = .ok (handle8.perform_fft st0ex) :=
  (process_inline_checks_and_bounds handle8 avxHandle16 2 1 (by norm_num) (by norm_num)
    rfl rfl 8 4 st0ex).2.2.1 rfl (Nat.le_refl 4)

/-! ## Claim C3: complex-level behaviour of the SIMD building blocks -/

theorem cvec_column_butterfly2_fst (a b : M256) (t : Fin 4) :
    cvec (column_butterfly2_avx_f32 a b).1 t = cvec a t + cvec b t := by
  fin_cases t <;> rfl

theorem cvec_column_butterfly2_snd (a b : M256) (t : Fin 4) :
    cvec (column_butterfly2_avx_f32 a b).2 t = cvec a t - cvec b t := by
  fin_cases t <;> rfl

/-- `complex_multiply_f32!` multiplies lane-wise as complex numbers. -/
theorem cvec_complex_multiply (a b : M256) (t : Fin 4) :
    cvec (complex_multiply_f32 a b) t = cvec a t * cvec b t := by
  fin_cases t <;> rfl

/-- `complex_conj_multiply_f32!` multiplies by the conjugate of its left operand. -/
theorem cvec_complex_conj_multiply (a b : M256) (t : Fin 4) :
    cvec (complex_conj_multiply_f32 a b) t = (starRingEnd ℂ) (cvec a t) * cvec b t := by
  fin_cases t <;>
  · apply Complex.ext <;>
      · simp only [complex_conj_multiply_f32, mm256_fmsubadd_ps, mm256_mul_ps,
          mm256_moveldup_ps, mm256_movehdup_ps, mm256_permute_0xB1, perm4, cvec,
          Complex.mul_re, Complex.mul_im, Complex.conj_re, Complex.conj_im]
        norm_num
        try ring

/-- `butterfly4_twiddle_avx_f32!` rotates every lane by 90°, matching the scalar
`twiddles::rotate_90`. -/
theorem cvec_butterfly4_twiddle (e : M256) (inverse : Bool) (t : Fin 4) :
    cvec (butterfly4_twiddle_avx_f32 e inverse) t = rotate_90 (cvec e t) inverse := by
  cases inverse <;> fin_cases t <;> rfl

/-- The even stream of `split_evens_f32!` on two consecutive loads. -/
theorem cvec_split_evens_lo (f : ℕ → ℂ) (a : ℕ) (t : Fin 4) :
    cvec (split_evens_f32 (load_avx_f32 f a) (load_avx_f32 f (a + 4))).1 t
      = f (a + 2 * t.val) := by
  fin_cases t <;> rfl

/-- The even stream of `split_evens_f32!` on the second pair of loads. -/
theorem cvec_split_evens_hi (f : ℕ → ℂ) (a : ℕ) (t : Fin 4) :
    cvec (split_evens_f32 (load_avx_f32 f (a + 8)) (load_avx_f32 f (a + 12))).1 t
      = f (a + 8 + 2 * t.val) := by
  fin_cases t <;> rfl

/-- The `quarter1` stream produced by the nested `split_evens_f32!` calls of the
decimation loop: the samples `≡ 1 (mod 4)` of the 16-sample chunk. -/
theorem cvec_split_evens_quarter1 (f : ℕ → ℂ) (a : ℕ) (t : Fin 4) :
    cvec (split_evens_f32
      (split_evens_f32 (load_avx_f32 f a) (load_avx_f32 f (a + 4))).2
      (split_evens_f32 (load_avx_f32 f (a + 8)) (load_avx_f32 f (a + 12))).2).1 t
      = f (a + 4 * t.val + 1) := by
  fin_cases t <;> rfl

/-- The `quarter3` stream: the samples `≡ 3 (mod 4)` of the 16-sample chunk. -/
theorem cvec_split_evens_quarter3 (f : ℕ → ℂ) (a : ℕ) (t : Fin 4) :
    cvec (split_evens_f32
      (split_evens_f32 (load_avx_f32 f a) (load_avx_f32 f (a + 4))).2
      (split_evens_f32 (load_avx_f32 f (a + 8)) (load_avx_f32 f (a + 12))).2).2 t
      = f (a + 4 * t.val + 3) := by
  fin_cases t <;> rfl

/-- Effect of one iteration of the vectorized decimation loop: 8 packed even samples
to `buffer[8i..8i+8)`, 4 samples `≡ 1 (mod 4)` to `scratch_quarter1[4i..4i+4)`, and
4 samples `≡ 3 (mod 4)` to `scratch_quarter3[4i+1..4i+5)`; everything else is
untouched. -/
theorem decimBodyAvx_spec (st : SRState) (i : ℕ) :
    (∀ n, i * 8 ≤ n → n < i * 8 + 8 →
      (decimBodyAvx st i).buf n = st.buf (i * 16 + 2 * (n - i * 8))) ∧
    (∀ n, n < i * 8 ∨ i * 8 + 8 ≤ n → (decimBodyAvx st i).buf n = st.buf n) ∧
    (∀ n, i * 4 ≤ n → n < i * 4 + 4 →
      (decimBodyAvx st i).sq1 n = st.buf (i * 16 + 4 * (n - i * 4) + 1)) ∧
    (∀ n, n < i * 4 ∨ i * 4 + 4 ≤ n → (decimBodyAvx st i).sq1 n = st.sq1 n) ∧
    (∀ n, i * 4 + 1 ≤ n → n < i * 4 + 5 →
      (decimBodyAvx st i).sq3 n = st.buf (i * 16 + 4 * (n - (i * 4 + 1)) + 3)) ∧
    (∀ n, n < i * 4 + 1 ∨ i * 4 + 5 ≤ n → (decimBodyAvx st i).sq3 n = st.sq3 n) := by
  refine ⟨?_, ?_, ?_, ?_, ?_, ?_⟩
  · intro n h1 h2
    show store_avx_f32 (store_avx_f32 st.buf (i * 8) _) (i * 8 + 4) _ n = _
    rcases Nat.lt_or_ge n (i * 8 + 4) with hlt | hge
    · rw [store_avx_lt _ _ _ hlt, store_avx_in _ _ _ h1 hlt, cvec_split_evens_lo]
    · rw [store_avx_in _ _ _ hge (by omega), cvec_split_evens_hi]
      congr 1
      show i * 16 + 8 + 2 * (n - (i * 8 + 4)) = i * 16 + 2 * (n - i * 8)
      omega
  · intro n hn
    show store_avx_f32 (store_avx_f32 st.buf (i * 8) _) (i * 8 + 4) _ n = _
    rcases hn with h | h
    · rw [store_avx_lt _ _ _ (by omega), store_avx_lt _ _ _ (by omega)]
    · rw [store_avx_ge _ _ _ (by omega), store_avx_ge _ _ _ (by omega)]
  · intro n h1 h2
    show store_avx_f32 st.sq1 (i * 4) _ n = _
    rw [store_avx_in _ _ _ h1 h2, cvec_split_evens_quarter1]
  · intro n hn
    show store_avx_f32 st.sq1 (i * 4) _ n = _
    rcases hn with h | h
    · rw [store_avx_lt _ _ _ (by omega)]
    · rw [store_avx_ge _ _ _ (by omega)]
  · intro n h1 h2
    show store_avx_f32 st.sq3 (i * 4 + 1) _ n = _
    rw [store_avx_in _ _ _ h1 h2, cvec_split_evens_quarter3]
  · intro n hn
    show store_avx_f32 st.sq3 (i * 4 + 1) _ n = _
    rcases hn with h | h
    · rw [store_avx_lt _ _ _ (by omega)]
    · rw [store_avx_ge _ _ _ (by omega)]

/-- Invariant of the vectorized decimation loop after iterations `0 .. t-1`. -/
structure DecimAvxInv (st0 : SRState) (t : ℕ) (st : SRState) : Prop where
  buf_lo : ∀ j, j < 8 * t → st.buf j = st0.buf (2 * j)
  buf_hi : ∀ j, 8 * t ≤ j → st.buf j = st0.buf j
  sq1_lo : ∀ j, j < 4 * t → st.sq1 j = st0.buf (4 * j + 1)
  sq1_hi : ∀ j, 4 * t ≤ j → st.sq1 j = st0.sq1 j
  sq3_lo : ∀ j, 1 ≤ j → j < 4 * t + 1 → st.sq3 j = st0.buf (4 * j - 1)
  sq3_hi : ∀ j, j = 0 ∨ 4 * t + 1 ≤ j → st.sq3 j = st0.sq3 j

theorem decimBodyAvx_inv {st0 : SRState} {t : ℕ} {st : SRState}
    (h : DecimAvxInv st0 t st) :
    DecimAvxInv st0 (t + 1) (decimBodyAvx st t) := by
  obtain ⟨hb_in, hb_out, hs1_in, hs1_out, hs3_in, hs3_out⟩ := decimBodyAvx_spec st t
  refine ⟨?_, ?_, ?_, ?_, ?_, ?_⟩
  · intro j hj
    rcases Nat.lt_or_ge j (8 * t) with hlt | hge
    · rw [hb_out j (by omega)]
      exact h.buf_lo j hlt
    · rw [hb_in j (by omega) (by omega), h.buf_hi (t * 16 + 2 * (j - t * 8)) (by omega)]
      congr 1
      omega
  · intro j hj
    rw [hb_out j (by omega)]
    exact h.buf_hi j (by omega)
  · intro j hj
    rcases Nat.lt_or_ge j (4 * t) with hlt | hge
    · rw [hs1_out j (by omega)]
      exact h.sq1_lo j hlt
    · rw [hs1_in j (by omega) (by omega), h.buf_hi (t * 16 + 4 * (j - t * 4) + 1) (by omega)]
      congr 1
      omega
  · intro j hj
    rw [hs1_out j (by omega)]
    exact h.sq1_hi j (by omega)
  · intro j hj1 hj2
    rcases Nat.lt_or_ge j (4 * t + 1) with hlt | hge
    · rw [hs3_out j (by omega)]
      exact h.sq3_lo j hj1 hlt
    · rw [hs3_in j (by omega) (by omega),
        h.buf_hi (t * 16 + 4 * (j - (t * 4 + 1)) + 3) (by omega)]
      congr 1
      omega
  · intro j hj
    rw [hs3_out j (by omega)]
    exact h.sq3_hi j (by omega)

theorem iterFor_decimAvx_inv (st0 : SRState) :
    ∀ (c t : ℕ) (st : SRState), DecimAvxInv st0 t st →
      DecimAvxInv st0 (t + c) (iterFor decimBodyAvx t c st) := by
  intro c
  induction c with
  | zero =>
      intro t st h
      simpa [iterFor_zero] using h
  | succ c ih =>
      intro t st h
      rw [iterFor_succ]
      have h2 := ih (t + 1) _ (decimBodyAvx_inv h)
      have harith : t + 1 + c = t + (c + 1) := by omega
      rw [harith] at h2
      exact h2

/-- After the vectorized decimation loop and the rotation patch, the state is exactly
the one the scalar decimation produces (on a buffer of length `16s`): even samples
packed into `buffer[0..8s)`, `≡1 (mod 4)` samples in `scratch_quarter1[0..4s)`, and
the rotated `≡3 (mod 4)` stream in `scratch_quarter3[0..4s)`. -/
theorem decimateAvx_spec (s : ℕ) (hs : 1 ≤ s) (st : SRState) (n : ℕ) :
    (n < 8 * s → (iterFor decimBodyAvx 0 s st).buf n = st.buf (2 * n)) ∧
    (8 * s ≤ n → (iterFor decimBodyAvx 0 s st).buf n = st.buf n) ∧
    (n < 4 * s → (iterFor decimBodyAvx 0 s st).sq1 n = st.buf (4 * n + 1)) ∧
    (4 * s ≤ n → (iterFor decimBodyAvx 0 s st).sq1 n = st.sq1 n) ∧
    (upd (iterFor decimBodyAvx 0 s st).sq3 0
        ((iterFor decimBodyAvx 0 s st).sq3 (4 * s)) 0 = st.buf (16 * s - 1)) ∧
    (1 ≤ n → n < 4 * s → upd (iterFor decimBodyAvx 0 s st).sq3 0
        ((iterFor decimBodyAvx 0 s st).sq3 (4 * s)) n = st.buf (4 * n - 1)) ∧
    (4 * s + 1 ≤ n → upd (iterFor decimBodyAvx 0 s st).sq3 0
        ((iterFor decimBodyAvx 0 s st).sq3 (4 * s)) n = st.sq3 n) := by
  have h0 : DecimAvxInv st 0 st := by
    refine ⟨?_, ?_, ?_, ?_, ?_, ?_⟩ <;> intros <;> first | omega | rfl
  have hinv := iterFor_decimAvx_inv st s 0 st h0
  rw [Nat.zero_add] at hinv
  refine ⟨?_, ?_, ?_, ?_, ?_, ?_, ?_⟩
  · intro hn
    exact hinv.buf_lo n hn
  · intro hn
    exact hinv.buf_hi n hn
  · intro hn
    exact hinv.sq1_lo n hn
  · intro hn
    exact hinv.sq1_hi n hn
  · rw [upd_self, hinv.sq3_lo (4 * s) (by omega) (by omega)]
    congr 1
    omega
  · intro h1 h2
    rw [upd_ne _ _ _ (by omega)]
    exact hinv.sq3_lo n h1 (by omega)
  · intro hn
    rw [upd_ne _ _ _ (by omega)]
    exact hinv.sq3_hi n (by omega)

theorem store_avx_out (f : ℕ → ℂ) (idx : ℕ) (v : M256) {n : ℕ}
    (h : n < idx ∨ idx + 4 ≤ n) : store_avx_f32 f idx v n = f n := by
  rcases h with h | h
  · exact store_avx_lt f idx v h
  · exact store_avx_ge f idx v h

theorem store_avx_at (f : ℕ → ℂ) (idx : ℕ) (v : M256) (t : Fin 4) :
    store_avx_f32 f idx v (idx + t.val) = cvec v t := by
  rw [store_avx_in f idx v (by omega) (by omega)]
  congr 1
  apply Fin.ext
  show idx + t.val - idx = t.val
  omega

/-- Effect of one iteration of the vectorized recombination loop on each of its four
output regions, at the complex level; everything outside the four regions is
untouched. -/
theorem recombBodyAvx_spec (inverse : Bool) (twv : ℕ → M256) (hl ql tql : ℕ)
    (st : SRState) (i : ℕ) (h1 : 4 ≤ ql) (h2 : ql + 4 ≤ hl) (h3 : hl + 4 ≤ tql) :
    (∀ t : Fin 4,
      (recombBodyAvx inverse twv hl ql tql st i).buf (i * 4 + t.val)
        = st.buf (i * 4 + t.val)
          + (cvec (twv i) t * st.sq1 (i * 4 + t.val)
            + (starRingEnd ℂ) (cvec (twv i) t) * st.sq3 (i * 4 + t.val)) ∧
      (recombBodyAvx inverse twv hl ql tql st i).buf (i * 4 + hl + t.val)
        = st.buf (i * 4 + t.val)
          - (cvec (twv i) t * st.sq1 (i * 4 + t.val)
            + (starRingEnd ℂ) (cvec (twv i) t) * st.sq3 (i * 4 + t.val)) ∧
      (recombBodyAvx inverse twv hl ql tql st i).buf (i * 4 + ql + t.val)
        = st.buf (ql + i * 4 + t.val)
          + rotate_90 (cvec (twv i) t * st.sq1 (i * 4 + t.val)
            - (starRingEnd ℂ) (cvec (twv i) t) * st.sq3 (i * 4 + t.val)) inverse ∧
      (recombBodyAvx inverse twv hl ql tql st i).buf (i * 4 + tql + t.val)
        = st.buf (ql + i * 4 + t.val)
          - rotate_90 (cvec (twv i) t * st.sq1 (i * 4 + t.val)
            - (starRingEnd ℂ) (cvec (twv i) t) * st.sq3 (i * 4 + t.val)) inverse) ∧
    (∀ n, (n < i * 4 ∨ i * 4 + 4 ≤ n) → (n < i * 4 + ql ∨ i * 4 + ql + 4 ≤ n) →
      (n < i * 4 + hl ∨ i * 4 + hl + 4 ≤ n) → (n < i * 4 + tql ∨ i * 4 + tql + 4 ≤ n) →
      (recombBodyAvx inverse twv hl ql tql st i).buf n = st.buf n) ∧
    (recombBodyAvx inverse twv hl ql tql st i).sq1 = st.sq1 ∧
    (recombBodyAvx inverse twv hl ql tql st i).sq3 = st.sq3 := by
  refine ⟨?_, ?_, rfl, rfl⟩
  · intro t
    have ht := t.isLt
    refine ⟨?_, ?_, ?_, ?_⟩
    · show store_avx_f32 (store_avx_f32 (store_avx_f32 (store_avx_f32 st.buf (i * 4) _)
        (i * 4 + ql) _) (i * 4 + hl) _) (i * 4 + tql) _ (i * 4 + t.val) = _
      rw [store_avx_out _ _ _ (by omega), store_avx_out _ _ _ (by omega),
        store_avx_out _ _ _ (by omega), store_avx_at,
        cvec_column_butterfly2_fst, cvec_load_avx, cvec_column_butterfly2_fst,
        cvec_complex_multiply, cvec_complex_conj_multiply, cvec_load_avx, cvec_load_avx]
    · show store_avx_f32 (store_avx_f32 (store_avx_f32 (store_avx_f32 st.buf (i * 4) _)
        (i * 4 + ql) _) (i * 4 + hl) _) (i * 4 + tql) _ (i * 4 + hl + t.val) = _
      rw [store_avx_out _ _ _ (by omega),
        show i * 4 + hl + t.val = (i * 4 + hl) + t.val from rfl, store_avx_at,
        cvec_column_butterfly2_snd, cvec_load_avx, cvec_column_butterfly2_fst,
        cvec_complex_multiply, cvec_complex_conj_multiply, cvec_load_avx, cvec_load_avx]
    · show store_avx_f32 (store_avx_f32 (store_avx_f32 (store_avx_f32 st.buf (i * 4) _)
        (i * 4 + ql) _) (i * 4 + hl) _) (i * 4 + tql) _ (i * 4 + ql + t.val) = _
      rw [store_avx_out _ _ _ (by omega), store_avx_out _ _ _ (by omega),
        show i * 4 + ql + t.val = (i * 4 + ql) + t.val from rfl, store_avx_at,
        cvec_column_butterfly2_fst, cvec_load_avx, cvec_butterfly4_twiddle,
        cvec_column_butterfly2_snd,
        cvec_complex_multiply, cvec_complex_conj_multiply, cvec_load_avx, cvec_load_avx]
    · show store_avx_f32 (store_avx_f32 (store_avx_f32 (store_avx_f32 st.buf (i * 4) _)
        (i * 4 + ql) _) (i * 4 + hl) _) (i * 4 + tql) _ (i * 4 + tql + t.val) = _
      rw [show i * 4 + tql + t.val = (i * 4 + tql) + t.val from rfl, store_avx_at,
        cvec_column_butterfly2_snd, cvec_load_avx, cvec_butterfly4_twiddle,
        cvec_column_butterfly2_snd,
        cvec_complex_multiply, cvec_complex_conj_multiply, cvec_load_avx, cvec_load_avx]
  · intro n hn0 hnq hnh hnt
    show store_avx_f32 (store_avx_f32 (store_avx_f32 (store_avx_f32 st.buf (i * 4) _)
      (i * 4 + ql) _) (i * 4 + hl) _) (i * 4 + tql) _ n = _
    rw [store_avx_out _ _ _ (by omega), store_avx_out _ _ _ (by omega),
      store_avx_out _ _ _ (by omega), store_avx_out _ _ _ (by omega)]

/-- Invariant of the vectorized recombination loop after iterations `0 .. t-1`, in
terms of the scalar twiddle values `twS` (`twS (4i+t)` is lane `t` of twiddle vector
`i`). -/
structure RecombAvxInv (inverse : Bool) (twS : ℕ → ℂ) (s : ℕ) (st0 : SRState)
    (t : ℕ) (st : SRState) : Prop where
  done0 : ∀ k, k < 4 * t → st.buf k = st0.buf k + recombSum twS st0 k
  done1 : ∀ k, k < 4 * t →
    st.buf (k + 4 * s) = st0.buf (k + 4 * s) + rotate_90 (recombDiff twS st0 k) inverse
  done2 : ∀ k, k < 4 * t → st.buf (k + 8 * s) = st0.buf k - recombSum twS st0 k
  done3 : ∀ k, k < 4 * t →
    st.buf (k + 12 * s) = st0.buf (k + 4 * s) - rotate_90 (recombDiff twS st0 k) inverse
  rest0 : ∀ k, 4 * t ≤ k → k < 4 * s → st.buf k = st0.buf k
  rest1 : ∀ k, 4 * t ≤ k → k < 4 * s → st.buf (k + 4 * s) = st0.buf (k + 4 * s)
  sq1_eq : st.sq1 = st0.sq1
  sq3_eq : st.sq3 = st0.sq3

theorem recombBodyAvx_inv {inverse : Bool} {twv : ℕ → M256} {twS : ℕ → ℂ} {s : ℕ}
    {st0 : SRState} {t : ℕ} {st : SRState} (hs : 1 ≤ s) (ht : t < s)
    (htw : ∀ u : Fin 4, cvec (twv t) u = twS (t * 4 + u.val))
    (h : RecombAvxInv inverse twS s st0 t st) :
    RecombAvxInv inverse twS s st0 (t + 1)
      (recombBodyAvx inverse twv (8 * s) (4 * s) (12 * s) st t) := by
  obtain ⟨hreg, hout, hsq1, hsq3⟩ :=
    recombBodyAvx_spec inverse twv (8 * s) (4 * s) (12 * s) st t
      (by omega) (by omega) (by omega)
  refine ⟨?_, ?_, ?_, ?_, ?_, ?_, hsq1.trans h.sq1_eq, hsq3.trans h.sq3_eq⟩
  · intro k hk
    rcases Nat.lt_or_ge k (4 * t) with hlt | hge
    · rw [hout k (by omega) (by omega) (by omega) (by omega)]
      exact h.done0 k hlt
    · obtain ⟨r, hr4, rfl⟩ : ∃ r, r < 4 ∧ k = t * 4 + r := ⟨k - t * 4, by omega, by omega⟩
      have hb : (recombBodyAvx inverse twv (8 * s) (4 * s) (12 * s) st t).buf (t * 4 + r)
          = st.buf (t * 4 + r) + (cvec (twv t) ⟨r, hr4⟩ * st.sq1 (t * 4 + r)
            + (starRingEnd ℂ) (cvec (twv t) ⟨r, hr4⟩) * st.sq3 (t * 4 + r)) :=
        (hreg ⟨r, hr4⟩).1
      have htwr : cvec (twv t) ⟨r, hr4⟩ = twS (t * 4 + r) := htw ⟨r, hr4⟩
      rw [hb, htwr, h.rest0 (t * 4 + r) (by omega) (by omega), h.sq1_eq, h.sq3_eq,
        recombSum]
  · intro k hk
    rcases Nat.lt_or_ge k (4 * t) with hlt | hge
    · rw [hout (k + 4 * s) (by omega) (by omega) (by omega) (by omega)]
      exact h.done1 k hlt
    · obtain ⟨r, hr4, rfl⟩ : ∃ r, r < 4 ∧ k = t * 4 + r := ⟨k - t * 4, by omega, by omega⟩
      have hb : (recombBodyAvx inverse twv (8 * s) (4 * s) (12 * s) st t).buf
            (t * 4 + 4 * s + r)
          = st.buf (4 * s + t * 4 + r)
            + rotate_90 (cvec (twv t) ⟨r, hr4⟩ * st.sq1 (t * 4 + r)
              - (starRingEnd ℂ) (cvec (twv t) ⟨r, hr4⟩) * st.sq3 (t * 4 + r)) inverse :=
        (hreg ⟨r, hr4⟩).2.2.1
      have htwr : cvec (twv t) ⟨r, hr4⟩ = twS (t * 4 + r) := htw ⟨r, hr4⟩
      rw [show t * 4 + r + 4 * s = t * 4 + 4 * s + r from by ring, hb,
        show 4 * s + t * 4 + r = t * 4 + r + 4 * s from by ring,
        h.rest1 (t * 4 + r) (by omega) (by omega),
        show t * 4 + r + 4 * s = t * 4 + 4 * s + r from by ring,
        htwr, h.sq1_eq, h.sq3_eq, recombDiff]
  · intro k hk
    rcases Nat.lt_or_ge k (4 * t) with hlt | hge
    · rw [hout (k + 8 * s) (by omega) (by omega) (by omega) (by omega)]
      exact h.done2 k hlt
    · obtain ⟨r, hr4, rfl⟩ : ∃ r, r < 4 ∧ k = t * 4 + r := ⟨k - t * 4, by omega, by omega⟩
      have hb : (recombBodyAvx inverse twv (8 * s) (4 * s) (12 * s) st t).buf
            (t * 4 + 8 * s + r)
          = st.buf (t * 4 + r) - (cvec (twv t) ⟨r, hr4⟩ * st.sq1 (t * 4 + r)
            + (starRingEnd ℂ) (cvec (twv t) ⟨r, hr4⟩) * st.sq3 (t * 4 + r)) :=
        (hreg ⟨r, hr4⟩).2.1
      have htwr : cvec (twv t) ⟨r, hr4⟩ = twS (t * 4 + r) := htw ⟨r, hr4⟩
      rw [show t * 4 + r + 8 * s = t * 4 + 8 * s + r from by ring, hb, htwr,
        h.rest0 (t * 4 + r) (by omega) (by omega), h.sq1_eq, h.sq3_eq, recombSum]
  · intro k hk
    rcases Nat.lt_or_ge k (4 * t) with hlt | hge
    · rw [hout (k + 12 * s) (by omega) (by omega) (by omega) (by omega)]
      exact h.done3 k hlt
    · obtain ⟨r, hr4, rfl⟩ : ∃ r, r < 4 ∧ k = t * 4 + r := ⟨k - t * 4, by omega, by omega⟩
      have hb : (recombBodyAvx inverse twv (8 * s) (4 * s) (12 * s) st t).buf
            (t * 4 + 12 * s + r)
          = st.buf (4 * s + t * 4 + r)
            - rotate_90 (cvec (twv t) ⟨r, hr4⟩ * st.sq1 (t * 4 + r)
              - (starRingEnd ℂ) (cvec (twv t) ⟨r, hr4⟩) * st.sq3 (t * 4 + r)) inverse :=
        (hreg ⟨r, hr4⟩).2.2.2
      have htwr : cvec (twv t) ⟨r, hr4⟩ = twS (t * 4 + r) := htw ⟨r, hr4⟩
      rw [show t * 4 + r + 12 * s = t * 4 + 12 * s + r from by ring, hb,
        show 4 * s + t * 4 + r = t * 4 + r + 4 * s from by ring,
        h.rest1 (t * 4 + r) (by omega) (by omega),
        show t * 4 + r + 4 * s = t * 4 + 4 * s + r from by ring,
        htwr, h.sq1_eq, h.sq3_eq, recombDiff]
  · intro k hk1 hk2
    rw [hout k (by omega) (by omega) (by omega) (by omega)]
    exact h.rest0 k (by omega) hk2
  · intro k hk1 hk2
    rw [hout (k + 4 * s) (by omega) (by omega) (by omega) (by omega)]
    exact h.rest1 k (by omega) hk2

theorem iterFor_recombAvx_inv (inverse : Bool) (twv : ℕ → M256) (twS : ℕ → ℂ)
    (s : ℕ) (hs : 1 ≤ s) (st0 : SRState)
    (htw : ∀ i, i < s → ∀ u : Fin 4, cvec (twv i) u = twS (i * 4 + u.val)) :
    ∀ (c t : ℕ) (st : SRState), t + c ≤ s → RecombAvxInv inverse twS s st0 t st →
      RecombAvxInv inverse twS s st0 (t + c)
        (iterFor (recombBodyAvx inverse twv (8 * s) (4 * s) (12 * s)) t c st) := by
  intro c
  induction c with
  | zero =>
      intro t st _ h
      simpa [iterFor_zero] using h
  | succ c ih =>
      intro t st hc h
      rw [iterFor_succ]
      have h1 := recombBodyAvx_inv hs (by omega) (htw t (by omega)) h
      have h2 := ih (t + 1) _ (by omega) h1
      have harith : t + 1 + c = t + (c + 1) := by omega
      rw [harith] at h2
      exact h2

/-- Full characterization of the vectorized recombination loop: it writes exactly the
scalar recombination formulas. -/
theorem recombineAvx_spec (inverse : Bool) (twv : ℕ → M256) (twS : ℕ → ℂ)
    (s : ℕ) (hs : 1 ≤ s) (st1 : SRState)
    (htw : ∀ i, i < s → ∀ u : Fin 4, cvec (twv i) u = twS (i * 4 + u.val)) :
    ∀ k, k < 4 * s →
      (iterFor (recombBodyAvx inverse twv (8 * s) (4 * s) (12 * s)) 0 s st1).buf k
        = st1.buf k + recombSum twS st1 k ∧
      (iterFor (recombBodyAvx inverse twv (8 * s) (4 * s) (12 * s)) 0 s st1).buf (k + 4 * s)
        = st1.buf (k + 4 * s) + rotate_90 (recombDiff twS st1 k) inverse ∧
      (iterFor (recombBodyAvx inverse twv (8 * s) (4 * s) (12 * s)) 0 s st1).buf (k + 8 * s)
        = st1.buf k - recombSum twS st1 k ∧
      (iterFor (recombBodyAvx inverse twv (8 * s) (4 * s) (12 * s)) 0 s st1).buf (k + 12 * s)
        = st1.buf (k + 4 * s) - rotate_90 (recombDiff twS st1 k) inverse := by
  intro k hk
  have h0 : RecombAvxInv inverse twS s st1 0 st1 := by
    refine ⟨?_, ?_, ?_, ?_, ?_, ?_, rfl, rfl⟩ <;> intros <;> first | omega | rfl
  have hinv := iterFor_recombAvx_inv inverse twv twS s hs st1 htw s 0 st1 (by omega) h0
  rw [Nat.zero_add] at hinv
  exact ⟨hinv.done0 k hk, hinv.done1 k hk, hinv.done2 k hk, hinv.done3 k hk⟩

/-- `perform_fft_f32` is exactly the vectorized decimation loop, the rotation patch
`scratch_quarter3[0] = scratch_quarter3[quarter_len]`, the inner transforms, then the
vectorized recombination loop, once `len = 16*s` fixes the derived lengths. -/
theorem perform_fft_f32_eq (self : SplitRadixAvx) (s : ℕ) (hlen : self.len = 16 * s)
    (st : SRState) :
    self.perform_fft_f32 st
      = iterFor (recombBodyAvx self.inverse self.twiddles (8 * s) (4 * s) (12 * s)) 0 s
          (innerStage self.fft_half self.fft_quarter (8 * s) (4 * s)
            ⟨(iterFor decimBodyAvx 0 s st).buf, (iterFor decimBodyAvx 0 s st).sq1,
             upd (iterFor decimBodyAvx 0 s st).sq3 0
               ((iterFor decimBodyAvx 0 s st).sq3 (4 * s))⟩) := by
  simp only [SplitRadixAvx.perform_fft_f32]
  rw [hlen]
  rw [show 16 * s / 2 = 8 * s from by omega, show 16 * s / 4 = 4 * s from by omega,
    show 16 * s / 16 = s from by omega, show 8 * s + 4 * s = 12 * s from by ring]

/-- If two recombination-entry states agree on `buffer[0..8s)` and on the first `4s`
entries of each scratch quarter, the vectorized recombination loop (with lane-coherent
twiddles) and the scalar recombination loop produce the same `buffer[0..16s)`. -/
theorem recombAvx_agrees (inverse : Bool) (twv : ℕ → M256) (tw : ℕ → ℂ) (s : ℕ)
    (hs : 1 ≤ s) (stA stS : SRState)
    (htw : ∀ i, i < s → ∀ u : Fin 4, cvec (twv i) u = tw (i * 4 + u.val))
    (hbuf : ∀ n, n < 8 * s → stA.buf n = stS.buf n)
    (hsq1 : ∀ n, n < 4 * s → stA.sq1 n = stS.sq1 n)
    (hsq3 : ∀ n, n < 4 * s → stA.sq3 n = stS.sq3 n) :
    ∀ n, n < 16 * s →
      (iterFor (recombBodyAvx inverse twv (8 * s) (4 * s) (12 * s)) 0 s stA).buf n
        = (recombine inverse tw (4 * s) stS).buf n := by
  have hSum : ∀ k, k < 4 * s → recombSum tw stA k = recombSum tw stS k := by
    intro k hk
    unfold recombSum
    rw [hsq1 k hk, hsq3 k hk]
  have hDiff : ∀ k, k < 4 * s → recombDiff tw stA k = recombDiff tw stS k := by
    intro k hk
    unfold recombDiff
    rw [hsq1 k hk, hsq3 k hk]
  obtain ⟨recS, -, -⟩ := recombine_spec inverse tw (4 * s) stS
  intro n hn
  rcases Nat.lt_or_ge n (4 * s) with h0 | h0
  · have ha := (recombineAvx_spec inverse twv tw s hs stA htw n h0).1
    have hb := (recS n h0).1
    rw [ha, hb, hbuf n (by omega), hSum n h0]
  · rcases Nat.lt_or_ge n (8 * s) with h1 | h1
    · obtain ⟨k, hk, rfl⟩ : ∃ k, k < 4 * s ∧ n = k + 4 * s := ⟨n - 4 * s, by omega, by omega⟩
      have ha := (recombineAvx_spec inverse twv tw s hs stA htw k hk).2.1
      have hb := (recS k hk).2.2.1
      rw [ha, hb, hbuf (k + 4 * s) (by omega), hDiff k hk]
    · rcases Nat.lt_or_ge n (12 * s) with h2 | h2
      · obtain ⟨k, hk, rfl⟩ : ∃ k, k < 4 * s ∧ n = k + 8 * s :=
          ⟨n - 8 * s, by omega, by omega⟩
        have ha := (recombineAvx_spec inverse twv tw s hs stA htw k hk).2.2.1
        have hb := (recS k hk).2.1
        rw [show k + 2 * (4 * s) = k + 8 * s from by ring] at hb
        rw [ha, hb, hbuf k (by omega), hSum k hk]
      · obtain ⟨k, hk, rfl⟩ : ∃ k, k < 4 * s ∧ n = k + 12 * s :=
          ⟨n - 12 * s, by omega, by omega⟩
        have ha := (recombineAvx_spec inverse twv tw s hs stA htw k hk).2.2.2
        have hb := (recS k hk).2.2.2
        rw [show k + 3 * (4 * s) = k + 12 * s from by ring] at hb
        rw [ha, hb, hbuf (k + 4 * s) (by omega), hDiff k hk]

/-- **C3.**  For every `N = 16s` divisible by 16, every input buffer, and the same
inner half/quarter transforms and direction (with lane-coherent twiddle tables, and an
inner quarter transform whose first `N/4` outputs depend only on its first `N/4`
inputs), `SplitRadixAvx::process_inline` succeeds exactly as the scalar
`SplitRadix::process_inline` does and produces the same output buffer contents on all
`N` positions: the vectorized decimation/recombination — including implementing the
`O₃` rotation by storing each iteration's output at scratch offset `i*4 + 1` and
afterwards copying the element at position `N/4` to position `0` — is equivalent to
the scalar algorithm. -/
theorem splitRadixAvx_matches_scalar (selfS : SplitRadix) (selfA : SplitRadixAvx)
    (s : ℕ) (hs : 1 ≤ s)
    (hlenS : selfS.len = 16 * s) (hlenA : selfA.len = 16 * s)
    (hinv : selfA.inverse = selfS.inverse)
    (hhalf : selfA.fft_half = selfS.fft_half)
    (hquarter : selfA.fft_quarter = selfS.fft_quarter)
    (hQframe : ∀ f g : ℕ → ℂ, (∀ j, j < 4 * s → f j = g j) →
      ∀ k, k < 4 * s → selfS.fft_quarter.apply f k = selfS.fft_quarter.apply g k)
    (htw : ∀ i, i < s → ∀ u : Fin 4,
      cvec (selfA.twiddles i) u = selfS.twiddles (i * 4 + u.val))
    (scratch_len : ℕ) (hscratch : 8 * s + 1 ≤ scratch_len) (st : SRState) :
    ∃ stS stA,
      selfS.process_inline (16 * s) scratch_len st = .ok stS ∧
      selfA.process_inline (16 * s) scratch_len st = .ok stA ∧
      ∀ n, n < 16 * s → stA.buf n = stS.buf n := by
  refine ⟨selfS.perform_fft st, selfA.perform_fft_f32 st, ?_, ?_, ?_⟩
  · unfold SplitRadix.process_inline verify_length_inline verify_length_minimum
      SplitRadix.get_required_scratch_len
    rw [if_pos hlenS.symm, if_pos (show selfS.len / 2 ≤ scratch_len by omega)]
    rfl
  · unfold SplitRadixAvx.process_inline verify_length_inline verify_length_minimum
      SplitRadixAvx.get_required_scratch_len
    rw [if_pos hlenA.symm, if_pos (show selfA.len / 2 + 1 ≤ scratch_len by omega)]
    rfl
  · obtain ⟨b1, b2, b3, b4, b5, b6, b7⟩ := decimate_spec (4 * s) (by omega) st
    have hbufD : (iterFor decimBodyAvx 0 s st).buf = (decimate (4 * s) st).buf := by
      funext j
      rcases Nat.lt_or_ge j (8 * s) with hj | hj
      · rw [(decimateAvx_spec s hs st j).1 hj, b1 j (by omega)]
      · rw [(decimateAvx_spec s hs st j).2.1 hj, b2 j (by omega)]
    have hsq1D : (iterFor decimBodyAvx 0 s st).sq1 = (decimate (4 * s) st).sq1 := by
      funext j
      rcases Nat.lt_or_ge j (4 * s) with hj | hj
      · rw [(decimateAvx_spec s hs st j).2.2.1 hj, b3 j (by omega)]
      · rw [(decimateAvx_spec s hs st j).2.2.2.1 hj, b4 j (by omega)]
    have hsq3D : ∀ j, j < 4 * s →
        upd (iterFor decimBodyAvx 0 s st).sq3 0
            ((iterFor decimBodyAvx 0 s st).sq3 (4 * s)) j
          = (decimate (4 * s) st).sq3 j := by
      intro j hj
      rcases Nat.eq_zero_or_pos j with rfl | hj1
      · rw [(decimateAvx_spec s hs st 0).2.2.2.2.1, b5]
        congr 1
        omega
      · rw [(decimateAvx_spec s hs st j).2.2.2.2.2.1 hj1 hj, b6 j hj1 (by omega)]
    intro n hn
    rw [perform_fft_f32_eq selfA s hlenA st, perform_fft_eq selfS (4 * s) (by omega) st,
      hhalf, hquarter, hinv, show 2 * (4 * s) = 8 * s from by ring]
    refine recombAvx_agrees selfS.inverse selfA.twiddles selfS.twiddles s hs
      (innerStage selfS.fft_half selfS.fft_quarter (8 * s) (4 * s)
        ⟨(iterFor decimBodyAvx 0 s st).buf, (iterFor decimBodyAvx 0 s st).sq1,
         upd (iterFor decimBodyAvx 0 s st).sq3 0
           ((iterFor decimBodyAvx 0 s st).sq3 (4 * s))⟩)
      (innerStage selfS.fft_half selfS.fft_quarter (8 * s) (4 * s) (decimate (4 * s) st))
      htw ?_ ?_ ?_ n hn
    · intro q hq
      show overlay (selfS.fft_half.apply (iterFor decimBodyAvx 0 s st).buf) (8 * s)
          (iterFor decimBodyAvx 0 s st).buf q
        = overlay (selfS.fft_half.apply (decimate (4 * s) st).buf) (8 * s)
          (decimate (4 * s) st).buf q
      rw [hbufD]
    · intro q hq
      show overlay (selfS.fft_quarter.apply (iterFor decimBodyAvx 0 s st).sq1) (4 * s)
          (iterFor decimBodyAvx 0 s st).sq1 q
        = overlay (selfS.fft_quarter.apply (decimate (4 * s) st).sq1) (4 * s)
          (decimate (4 * s) st).sq1 q
      rw [hsq1D]
    · intro q hq
      show overlay (selfS.fft_quarter.apply (upd (iterFor decimBodyAvx 0 s st).sq3 0
            ((iterFor decimBodyAvx 0 s st).sq3 (4 * s)))) (4 * s)
          (upd (iterFor decimBodyAvx 0 s st).sq3 0
            ((iterFor decimBodyAvx 0 s st).sq3 (4 * s))) q
        = overlay (selfS.fft_quarter.apply (decimate (4 * s) st).sq3) (4 * s)
          (decimate (4 * s) st).sq3 q
      unfold overlay
      rw [if_pos hq, if_pos hq]
      exact hQframe _ _ hsq3D q hq

/-- Concrete scalar split-radix handle of length 16 used by the refinement witness;
its fields are exactly what `SplitRadix::new(DFT::new(8, false), DFT::new(4, false))`
produces. -/
noncomputable def scalarHandle16 : SplitRadix :=
  { twiddles := fun i => single_twiddle i 16 false
    fft_half := innerD 8 false
    fft_quarter := innerD 4 false
    len := 16
    inverse := false }

/-- Witness for C3: the concrete length-16 AVX handle and the concrete length-16
scalar handle both succeed on a correctly sized call and agree on all 16 outputs. -/
theorem splitRadixAvx_matches_scalar_witness :
    ∃ stS stA,
      scalarHandle16.process_inline (16 * 1) 9 st0ex = .ok stS ∧
      avxHandle16.process_inline (16 * 1) 9 st0ex = .ok stA ∧
      ∀ n, n < 16 * 1 → stA.buf n = stS.buf n :=
  splitRadixAvx_matches_scalar scalarHandle16 avxHandle16 1 (by norm_num) rfl rfl rfl
    rfl rfl
    (fun f g hfg k _ => dft_ext 4 false f g (fun j hj => hfg j (by omega)) k)
    (fun i _ u => by
      show cvec (load_avx_f32 (fun j => single_twiddle (i * 4 + j) 16 false) 0) u
        = single_twiddle (i * 4 + u.val) 16 false
      rw [cvec_load_avx]
      show single_twiddle (i * 4 + (0 + u.val)) 16 false = _
      rw [Nat.zero_add])
    9 (by norm_num) st0ex

end RustFFT
